import Mathlib

/-!
# unittest.h : dependency ordering, config compensation and the execution loop

A shallow embedding of the ordering core of `src/unittest.h`, followed by the
theorems proved about it.

* C strings (`char const *`) are `Option String`, `none` being `NULL`; two
  present strings compare equal under `strcmp` exactly when they are equal.
* `depends_on[16]` is the list of its entries before the first `NULL`; a list
  of 16 entries is an array without `NULL`, on which the loop
  `while(*d != NULL)` reads `depends_on[16]`.
* Function pointers are `Option Nat` (an address), `none` being `NULL`.
* A sentinel-terminated array is the list of its elements, the zero-valued
  sentinel being implicit after the last element.
* An `int8_t` value is an integer of `[-128, 128)`; storing a wider value
  reduces it modulo 256.
* A read outside an array makes a function return `none`.
-/

namespace Unittest

/-! ## Data model -/

/-- The struct `unittest_result_s`. -/
structure unittest_result_s where
  succ : Int
  fail : Int
deriving DecidableEq

/-- The struct `unittest_config_s`. -/
structure unittest_config_s where
  file : Option String
  unique_id : Int
  name : Option String
  depends_on : List String
  init : Option Nat
  clean : Option Nat
deriving DecidableEq

/-- The struct `unittest_s`. -/
structure unittest_s where
  file : Option String
  unique_id : Int
  line : Nat
  fn : Option Nat
  name : Option String
  depends_on : List String
  init : Option Nat
  clean : Option Nat
deriving DecidableEq

/-- The zero-valued `unittest_s`, used as array terminator. -/
def unittest_s.zero : unittest_s :=
  { file := none, unique_id := 0, line := 0, fn := none, name := none,
    depends_on := [], init := none, clean := none }

/-- The zero-valued `unittest_config_s`, used as array terminator. -/
def unittest_config_s.zero : unittest_config_s :=
  { file := none, unique_id := 0, name := none, depends_on := [],
    init := none, clean := none }

/-- Conversion of an integer to `int8_t` (reduction modulo 256 into `[-128, 128)`). -/
def int8 (x : Int) : Int := (x + 128) % 256 - 128

/-! ## String comparison -/

/-- The libc `strcmp` on the characters of two strings: the sign of the first difference. -/
def strcmp_chars : List Char → List Char → Int
  | [], [] => 0
  | [], _ :: _ => -1
  | _ :: _, [] => 1
  | a :: as, b :: bs =>
    if a = b then strcmp_chars as bs
    else if a.toNat < b.toNat then -1 else 1

/-- The libc `strcmp` on two present strings. -/
def strcmp (a b : String) : Int := strcmp_chars a.data b.data

/-- The function `unittest_strcmp`. -/
def unittest_strcmp (a b : Option String) : Int :=
  match a, b with
  | none, none => 0
  | _, none => 1
  | none, _ => -1
  | some x, some y => strcmp x y

/-! ## Topological sort : the loops shared by both sorts

`unittest_toposort_by_tag` and `unittest_toposort_by_group` run the same
"build dag", "build mark" and "sort" loops, the first over the `name` and
`depends_on` fields of the tests of a group, the second over those of the
configs. The loops are embedded once, over the list of names and the list of
`depends_on` lists.
-/

/-- The `for j` loop of "build dag" for node `i` and one `depends_on` entry `d`,
from index `j` on: the indices `j ≠ i` whose name compares equal to `d`. -/
def dag_scan (i : Nat) (d : String) : Nat → List (Option String) → List Int
  | _, [] => []
  | j, nm :: rest =>
    if i = j then dag_scan i d (j + 1) rest
    else if unittest_strcmp nm (some d) = 0 then (j : Int) :: dag_scan i d (j + 1) rest
    else dag_scan i d (j + 1) rest

/-- The `while(*d != NULL)` loop of "build dag" for node `i`: the row `dag[i]`.
`slots` is the number of elements of the array `depends_on[16]` from `d` on,
and the list holds the non-`NULL` entries from `d` on. When no `NULL` is met
within the array the loop reads `*d` at `depends_on[16]`, outside the array:
the result is `none`. -/
def dag_row (names : List (Option String)) (i : Nat) : Nat → List String → Option (List Int)
  | 0, _ => none
  | _ + 1, [] => some []
  | slots + 1, d :: ds =>
    match dag_row names i slots ds with
    | none => none
    | some row => some (dag_scan i d 0 names ++ row)

/-- The outer `for i` loop of "build dag", from index `i` on. -/
def build_dag_from (names : List (Option String)) :
    Nat → List (List String) → Option (List (List Int))
  | _, [] => some []
  | i, deps :: rest =>
    match dag_row names i 16 deps with
    | none => none
    | some row =>
      match build_dag_from names (i + 1) rest with
      | none => none
      | some rows => some (row :: rows)

/-- The "build dag" loop. -/
def build_dag (names : List (Option String)) (deps : List (List String)) :
    Option (List (List Int)) :=
  build_dag_from names 0 deps

/-- The "build mark" loop: the size of each row stored into an `int8_t`. -/
def build_mark (dag : List (List Int)) : List Int :=
  dag.map (fun row => int8 (row.length : Int))

/-- The `for j` loop looking for the first node whose mark is zero, from index `j` on. -/
def find_zero : Nat → List Int → Option Nat
  | _, [] => none
  | j, m :: ms => if m = 0 then some j else find_zero (j + 1) ms

/-- The `for k` loop of "delete edges" on one row: entries equal to `node_id` become `-1`. -/
def delete_row_dag (node_id : Int) (row : List Int) : List Int :=
  row.map (fun e => if e = node_id then -1 else e)

/-- The `for k` loop of "delete edges" on one row: the mark is decremented once
for each entry equal to `node_id`. -/
def delete_row_mark (node_id : Int) : List Int → Int → Int
  | [], m => m
  | e :: es, m => if e = node_id then delete_row_mark node_id es (int8 (m - 1))
                  else delete_row_mark node_id es m

/-- The `for j` loop of "delete edges", from index `j` on: the new rows. -/
def delete_edges_dag (node_id : Nat) : Nat → List (List Int) → List (List Int)
  | _, [] => []
  | j, row :: rows =>
    (if node_id = j then row else delete_row_dag (node_id : Int) row)
      :: delete_edges_dag node_id (j + 1) rows

/-- The `for j` loop of "delete edges", from index `j` on: the new marks. -/
def delete_edges_mark (node_id : Nat) : Nat → List (List Int) → List Int → List Int
  | j, row :: rows, m :: ms =>
    (if node_id = j then m else delete_row_mark (node_id : Int) row m)
      :: delete_edges_mark node_id (j + 1) rows ms
  | _, _, _ => []

/-- The "sort" loop, `i` iterations remaining. The result is the list of node
ids pushed so far, in push order, paired with `false` when the loop left
through `return(-1)` because no mark was zero, and with `true` when it ran to
its end. -/
def sort_loop : Nat → List (List Int) → List Int → List Nat → Bool × List Nat
  | 0, _, _, res => (true, res)
  | i + 1, dag, mark, res =>
    match find_zero 0 mark with
    | none => (false, res)
    | some node_id =>
      sort_loop i (delete_edges_dag node_id 0 dag)
        (delete_edges_mark node_id 0 dag (mark.set node_id (-1)))
        (res ++ [node_id])

/-- The run of the "sort" loop over the nodes with the given names and
`depends_on` lists, after "build dag" and "build mark" (`none`: "build dag"
read outside a `depends_on` array). -/
def toposort_run (names : List (Option String)) (deps : List (List String)) :
    Option (Bool × List Nat) :=
  match build_dag names deps with
  | none => none
  | some dag => some (sort_loop names.length dag (build_mark dag) [])

/-- The order in which the "sort" loop pushes the nodes with the given names
and `depends_on` lists, when it runs to its end. -/
def toposort_order (names : List (Option String)) (deps : List (List String)) :
    Option (List Nat) :=
  match toposort_run names deps with
  | some (true, res) => some res
  | _ => none

/-- The order in which `unittest_toposort_by_tag` pushes the tests of a group,
when its "sort" loop runs to its end. -/
def tag_order (sorted_test : List unittest_s) : Option (List Nat) :=
  toposort_order (sorted_test.map (fun t => t.name)) (sorted_test.map (fun t => t.depends_on))

/-- The function `unittest_toposort_by_tag` on the `test_cnt` tests of one
group: the return value and the array after the call (`none`: "build dag" read
outside a `depends_on` array). -/
def unittest_toposort_by_tag (sorted_test : List unittest_s) :
    Option (Int × List unittest_s) :=
  match toposort_run (sorted_test.map (fun t => t.name))
      (sorted_test.map (fun t => t.depends_on)) with
  | none => none
  | some (false, _) => some (-1, sorted_test)
  | some (true, res) =>
    if res.length ≠ sorted_test.length then some (-1, sorted_test)
    else some (0, res.map (fun node_id => sorted_test.getD node_id unittest_s.zero))

/-! ## Grouping : file index and config compensation -/

/-- The function `unittest_match` on the `(file, unique_id)` fields of its two
arguments: `0` when they agree, `1` otherwise. -/
def unittest_match (a_file : Option String) (a_id : Int)
    (b_file : Option String) (b_id : Int) : Int :=
  if unittest_strcmp a_file b_file = 0 ∧ a_id = b_id then 0 else 1

/-- The function `unittest_get_total_test_count`. -/
def unittest_get_total_test_count : List unittest_s → Nat
  | [] => 0
  | t :: ts => if t.file = none then 0 else unittest_get_total_test_count ts + 1

/-- The function `unittest_get_total_config_count`. -/
def unittest_get_total_config_count : List unittest_config_s → Nat
  | [] => 0
  | c :: cs => if c.file = none then 0 else unittest_get_total_config_count cs + 1

/-- The `while` loop of `unittest_get_total_file_count`; `prev` is `*(t - 1)`. -/
def file_count_loop (prev : unittest_s) : List unittest_s → Nat → Nat
  | [], cnt => cnt
  | t :: ts, cnt =>
    if t.file = none then cnt
    else file_count_loop t ts
      (if unittest_match prev.file prev.unique_id t.file t.unique_id ≠ 0 then cnt + 1 else cnt)

/-- The function `unittest_get_total_file_count`. -/
def unittest_get_total_file_count : List unittest_s → Nat
  | [] => 0
  | t :: ts => if t.file = none then 0 else file_count_loop t ts 1

/-- The `while` loop of `unittest_build_file_index`; `prev` is `*(t - 1)`. The
result is what is pushed from here on, the final count and `-1` included. -/
def file_index_loop (prev : unittest_s) : List unittest_s → Nat → List Int
  | [], cnt => [(cnt : Int), -1]
  | t :: ts, cnt =>
    if t.file = none then [(cnt : Int), -1]
    else if unittest_match prev.file prev.unique_id t.file t.unique_id ≠ 0 then
      (cnt : Int) :: file_index_loop t ts (cnt + 1)
    else file_index_loop t ts (cnt + 1)

/-- The function `unittest_build_file_index`: the pushed entries, `-1` sentinel included. -/
def unittest_build_file_index : List unittest_s → List Int
  | [] => [0, -1]
  | t :: ts => if t.file = none then [0, -1] else 0 :: file_index_loop t ts 1

/-- The read `sorted_test[i]`: an element, the implicit sentinel right after
the last one, or `none` outside the array. -/
def test_at (a : List unittest_s) (i : Int) : Option unittest_s :=
  if i < 0 then none
  else match a.get? i.toNat with
    | some t => some t
    | none => if i.toNat = a.length then some unittest_s.zero else none

/-- The inner `while(unittest_match(t, c) != 0)` loop of
`unittest_compensate_config`. The pointer `t` is kept as its index `ti` into
`sorted_test`, the cursor `i` as the entries of `file_idx` after position `i`.
The result is the state on leaving the loop, `none` on a read outside
`sorted_test` or `file_idx`. -/
def compensate_inner (sorted_test : List unittest_s) (c : unittest_config_s) :
    List Int → Int → List unittest_config_s →
      Option (Int × List Int × List unittest_config_s)
  | [], ti, acc =>
    match test_at sorted_test ti with
    | none => none
    | some t =>
      if unittest_match t.file t.unique_id c.file c.unique_id ≠ 0 then none
      else some (ti, [], acc)
  | k :: rest, ti, acc =>
    match test_at sorted_test ti with
    | none => none
    | some t =>
      if unittest_match t.file t.unique_id c.file c.unique_id ≠ 0 then
        compensate_inner sorted_test c rest k
          (acc ++ [{ unittest_config_s.zero with file := t.file }])
      else some (ti, k :: rest, acc)

/-- The outer `while(c->file != NULL && t->file != NULL)` loop of
`unittest_compensate_config`, `c` pointing at the head of the config list. -/
def compensate_outer (sorted_test : List unittest_s) :
    List unittest_config_s → List Int → Int → List unittest_config_s →
      Option (List unittest_config_s)
  | [], _, _, acc => some acc
  | c :: cs, rest, ti, acc =>
    if c.file = none then some acc
    else match test_at sorted_test ti with
      | none => none
      | some t =>
        if t.file = none then some acc
        else match compensate_inner sorted_test c rest ti acc with
          | none => none
          | some (_, [], _) => none
          | some (_, k :: rest2, acc2) =>
            compensate_outer sorted_test cs rest2 k (acc2 ++ [c])

/-- The function `unittest_compensate_config`: the configs pushed to the
returned vector (`none` when the walk reads outside an array). -/
def unittest_compensate_config (sorted_test : List unittest_s)
    (sorted_config : List unittest_config_s) : Option (List unittest_config_s) :=
  match unittest_build_file_index sorted_test with
  | [] => none
  | k :: rest => compensate_outer sorted_test sorted_config rest k []

/-! ## Inter-group sort -/

/-- The elements `a[lo], ..., a[lo + cnt - 1]` read one by one. -/
def read_tests (a : List unittest_s) (lo : Int) : Nat → Option (List unittest_s)
  | 0 => some []
  | cnt + 1 =>
    match test_at a lo, read_tests a (lo + 1) cnt with
    | some t, some ts => some (t :: ts)
    | _, _ => none

/-- The read `file_idx[i]`. -/
def idx_at (file_idx : List Int) (i : Nat) : Option Int := file_idx.get? i

/-- The tests read by `for(j = file_idx[i]; j < file_idx[i + 1]; j++)`. -/
def group_tests (a : List unittest_s) (file_idx : List Int) (i : Nat) :
    Option (List unittest_s) :=
  match idx_at file_idx i, idx_at file_idx (i + 1) with
  | some lo, some hi => read_tests a lo (hi - lo).toNat
  | _, _ => none

/-- The content of `test_buf` after the groups of `order` were pushed. -/
def push_groups (a : List unittest_s) (file_idx : List Int) :
    List Nat → Option (List unittest_s)
  | [] => some []
  | file_id :: rest =>
    match group_tests a file_idx file_id, push_groups a file_idx rest with
    | some g, some gs => some (g ++ gs)
    | _, _ => none

/-- The first `cnt` elements of a `utkvec_t` buffer holding the pushed elements
`buf`: `utkv_init` allocates 64 zero-filled elements with `calloc`, and
`utkv_push` reallocates only when a 65th element is pushed, so that up to
index 63 the elements after the pushed ones are zero. Anything else is a read
of indeterminate memory. -/
def utkv_view {α : Type} (zero : α) (buf : List α) (cnt : Nat) : Option (List α) :=
  if cnt ≤ buf.length then some (buf.take cnt)
  else if buf.length ≤ 64 ∧ cnt ≤ 64 then
    some (buf ++ List.replicate (cnt - buf.length) zero)
  else none

/-- The function `unittest_toposort_by_group`: the return value, the test
array and the config array after the call (`none`: a read outside an array).
The config array is given by the elements the caller can read (at least
`file_cnt` of them). -/
def unittest_toposort_by_group (sorted_test : List unittest_s) (test_cnt : Nat)
    (sorted_config : List unittest_config_s) (file_idx : List Int) (file_cnt : Nat) :
    Option (Int × List unittest_s × List unittest_config_s) :=
  if sorted_config.length < file_cnt ∨ sorted_test.length < test_cnt then none
  else
    let config := sorted_config.take file_cnt
    match toposort_run (config.map (fun c => c.name)) (config.map (fun c => c.depends_on)) with
    | none => none
    | some run =>
      let config_buf := run.2.map (fun file_id => config.getD file_id unittest_config_s.zero)
      match push_groups sorted_test file_idx run.2 with
      | none => none
      | some test_buf =>
        if run.1 = false then some (-1, sorted_test, sorted_config)
        else if config_buf.length ≠ file_cnt then some (-1, sorted_test, sorted_config)
        else match utkv_view unittest_s.zero test_buf test_cnt with
          | none => none
          | some written =>
            some (0, written ++ sorted_test.drop test_cnt,
                  config_buf ++ sorted_config.drop file_cnt)

/-! ## Execution -/

/-- One call made by the execution loop of `unittest_main`. A context is the
position in the trace of the setup call that returned it; `none` is `NULL`. -/
inductive Event where
  | group_init (c : unittest_config_s)
  | test_init (t : unittest_s)
  | test_fn (t : unittest_s) (c : unittest_config_s) (ctx gctx : Option Nat)
  | test_clean (t : unittest_s) (ctx : Option Nat)
  | group_clean (c : unittest_config_s) (gctx : Option Nat)
deriving DecidableEq

/-- The `for j` loop of the execution loop over the tests of one group.
`body t c r` is the value of `*result` after the entry point of `t` ran with
config `c` on a result `r`. -/
def run_tests (body : unittest_s → unittest_config_s → unittest_result_s → unittest_result_s)
    (c : unittest_config_s) (gctx : Option Nat) :
    List unittest_s → List Event → unittest_result_s → List Event × unittest_result_s
  | [], tr, r => (tr, r)
  | t :: ts, tr, r =>
    if t.init ≠ none ∧ t.clean ≠ none then
      run_tests body c gctx ts
        (tr ++ [Event.test_init t, Event.test_fn t c (some tr.length) gctx,
                Event.test_clean t (some tr.length)])
        (body t c r)
    else
      run_tests body c gctx ts (tr ++ [Event.test_fn t c none gctx]) (body t c r)

/-- One iteration of the `for i` execution loop, for group `i`. -/
def run_group (body : unittest_s → unittest_config_s → unittest_result_s → unittest_result_s)
    (c : unittest_config_s) (tests : List unittest_s) (tr : List Event) :
    List Event × unittest_result_s :=
  if c.init ≠ none ∧ c.clean ≠ none then
    let out := run_tests body c (some tr.length) tests (tr ++ [Event.group_init c])
      { succ := 0, fail := 0 }
    (out.1 ++ [Event.group_clean c (some tr.length)], out.2)
  else
    run_tests body c none tests tr { succ := 0, fail := 0 }

/-- The `for i` execution loop of `unittest_main`, from group `i` on, with
`k` groups remaining. -/
def run_groups (body : unittest_s → unittest_config_s → unittest_result_s → unittest_result_s)
    (test : List unittest_s) (compd_config : List unittest_config_s) (file_idx : List Int) :
    Nat → Nat → List Event → List unittest_result_s →
      Option (List Event × List unittest_result_s)
  | _, 0, tr, res => some (tr, res)
  | i, k + 1, tr, res =>
    match compd_config.get? i, group_tests test file_idx i with
    | some c, some tests =>
      run_groups body test compd_config file_idx (i + 1) k
        (run_group body c tests tr).1 (res ++ [(run_group body c tests tr).2])
    | _, _ => none

/-- The "topological sort by tag" loop of `unittest_main`, from group `i` on,
with `k` groups remaining: `some none` is the `return(1)`. -/
def tag_loop (file_idx : List Int) :
    Nat → Nat → List unittest_s → Option (Option (List unittest_s))
  | _, 0, test => some (some test)
  | i, k + 1, test =>
    match idx_at file_idx i, idx_at file_idx (i + 1), group_tests test file_idx i with
    | some lo, some hi, some g =>
      match unittest_toposort_by_tag g with
      | none => none
      | some (ret, g2) =>
        if ret ≠ 0 then some none
        else tag_loop file_idx (i + 1) k (test.take lo.toNat ++ g2 ++ test.drop hi.toNat)
    | _, _, _ => none

/-- The outcome of a run of `unittest_main`. -/
structure Run where
  status : Int
  trace : List Event
  result : List unittest_result_s
  config : List unittest_config_s
deriving DecidableEq

/-- The function `unittest_main` from the call of `unittest_compensate_config`
on: `test` and `config` are the arrays left by `unittest_sort`. The outcome is
the return value, the calls made to setups, entry points and teardowns, the
per-group results and the configs handed to `unittest_print_results`. -/
def unittest_main (body : unittest_s → unittest_config_s → unittest_result_s → unittest_result_s)
    (test : List unittest_s) (config : List unittest_config_s) : Option Run :=
  match unittest_compensate_config test config with
  | none => none
  | some compd =>
    let test_cnt := unittest_get_total_test_count test
    let file_idx := unittest_build_file_index test
    let file_cnt := unittest_get_total_file_count test
    match tag_loop file_idx 0 file_cnt test with
    | none => none
    | some none => some { status := 1, trace := [], result := [], config := [] }
    | some (some test1) =>
      match utkv_view unittest_config_s.zero compd file_cnt with
      | none => none
      | some compd_config =>
        match unittest_toposort_by_group test1 test_cnt compd_config file_idx file_cnt with
        | none => none
        | some (ret, test2, compd_config2) =>
          if ret ≠ 0 then some { status := 1, trace := [], result := [], config := [] }
          else match run_groups body test2 compd_config2 file_idx 0 file_cnt [] [] with
            | none => none
            | some (tr, res) =>
              some { status := 0, trace := tr, result := res, config := compd_config2 }

/-! ## The sort when every `depends_on` array holds a `NULL`

The loops of "build dag" without the bound on the reads of `depends_on`, and
the functions built on them. On lists of at most 15 entries, that is on arrays
`depends_on[16]` that hold a `NULL`, they compute what `dag_row`, `build_dag`,
`toposort_run`, `tag_order` and `unittest_toposort_by_tag` compute (theorems
`dag_row_eq`, `build_dag_eq`, `toposort_run_eq`, `tag_order_eq` and
`toposort_by_tag_eq`). The general theorems on the sort are proved on them.
-/

/-- Every array `depends_on[16]` of the list holds a `NULL`: it has at most 15 entries. -/
def null_terminated (deps : List (List String)) : Prop := ∀ d ∈ deps, d.length < 16

/-- The row `dag[i]` built from the `depends_on` entries `deps` when the loop
`while(*d != NULL)` meets a `NULL`. -/
def dag_row_term (names : List (Option String)) (i : Nat) : List String → List Int
  | [] => []
  | d :: ds => dag_scan i d 0 names ++ dag_row_term names i ds

/-- The rows built by "build dag" from index `i` on when every loop
`while(*d != NULL)` meets a `NULL`. -/
def build_dag_from_term (names : List (Option String)) :
    Nat → List (List String) → List (List Int)
  | _, [] => []
  | i, deps :: rest => dag_row_term names i deps :: build_dag_from_term names (i + 1) rest

/-- The rows built by "build dag" when every loop `while(*d != NULL)` meets a `NULL`. -/
def build_dag_term (names : List (Option String)) (deps : List (List String)) :
    List (List Int) :=
  build_dag_from_term names 0 deps

/-- The run of the "sort" loop on the rows of `build_dag_term`. -/
def toposort_run_term (names : List (Option String)) (deps : List (List String)) :
    Bool × List Nat :=
  sort_loop names.length (build_dag_term names deps) (build_mark (build_dag_term names deps)) []

/-- The push order of `toposort_run_term` when its loop runs to its end. -/
def toposort_order_term (names : List (Option String)) (deps : List (List String)) :
    Option (List Nat) :=
  if (toposort_run_term names deps).1 then some (toposort_run_term names deps).2 else none

/-- The push order of the tests of a group when every `depends_on` array
holds a `NULL` and the "sort" loop runs to its end. -/
def tag_order_term (sorted_test : List unittest_s) : Option (List Nat) :=
  toposort_order_term (sorted_test.map (fun t => t.name))
    (sorted_test.map (fun t => t.depends_on))

/-- What `unittest_toposort_by_tag` returns and leaves in the array when every
`depends_on` array holds a `NULL`. -/
def toposort_by_tag_term (sorted_test : List unittest_s) : Int × List unittest_s :=
  match tag_order_term sorted_test with
  | none => (-1, sorted_test)
  | some res =>
    if res.length ≠ sorted_test.length then (-1, sorted_test)
    else (0, res.map (fun node_id => sorted_test.getD node_id unittest_s.zero))

/-! ## Specification vocabulary for the sort loop -/

/-- Whether `e` is the id of one of the nodes pushed so far. -/
def pushed (res : List Nat) (e : Int) : Bool := res.any (fun k => decide ((k : Int) = e))

/-- The number of entries of a row of the dependency graph that are not ids of
pushed nodes: the dependencies still to be scheduled, with multiplicity. -/
def live (res : List Nat) : List Int → Nat
  | [] => 0
  | e :: es => if pushed res e then live res es else live res es + 1

/-- A row of the dependency graph in which the ids of the pushed nodes are replaced by `-1`. -/
def mask (res : List Nat) (row : List Int) : List Int :=
  row.map (fun e => if pushed res e then -1 else e)

/-- The node `k` can be chosen by the "sort" loop after the nodes of `res` were
pushed, the rows of the dependency graph being `dag0`: no lower node not yet
pushed has a zero `int8_t` count of live entries, `k` has one unless it was
already pushed, and a node with fewer than 256 entries is chosen only when it
was not yet pushed. -/
def Pick (dag0 : List (List Int)) (res : List Nat) (k : Nat) : Prop :=
  k < dag0.length ∧
  (∀ a row, a < k → a ∉ res → dag0[a]? = some row → int8 (live res row : Int) ≠ 0) ∧
  (∀ row, k ∉ res → dag0[k]? = some row → int8 (live res row : Int) = 0) ∧
  (∀ row, dag0[k]? = some row → row.length < 256 → k ∉ res)

/-- The lists of node ids the "sort" loop can build on the dependency graph `dag0`. -/
inductive Sched (dag0 : List (List Int)) : List Nat → Prop
  | nil : Sched dag0 []
  | snoc (res : List Nat) (k : Nat) : Sched dag0 res → Pick dag0 res k → Sched dag0 (res ++ [k])

/-- No node not yet pushed has a zero `int8_t` count of live entries. -/
def Stuck (dag0 : List (List Int)) (res : List Nat) : Prop :=
  ∀ x row, x ∉ res → dag0[x]? = some row → int8 (live res row : Int) ≠ 0

/-- The state of the "sort" loop after the nodes of `res` were pushed. -/
structure Inv (dag0 dag : List (List Int)) (mark : List Int) (res : List Nat) : Prop where
  len_dag : dag.length = dag0.length
  len_mark : mark.length = dag0.length
  todo : ∀ x row, x ∉ res → dag0[x]? = some row →
    dag[x]? = some (mask res row) ∧ mark[x]? = some (int8 (live res row : Int))
  done : ∀ x row, x ∈ res → dag0[x]? = some row → row.length < 256 →
    (∃ r, dag[x]? = some r ∧ ∀ e ∈ r, e = -1) ∧ mark[x]? = some (-1) ∧ live res row = 0

/-- Whether the resolved dependency graph of a group has an edge from test `j`
to test `i`: they are distinct and the name of `j` is a `depends_on` entry of `i`. -/
def dep_edge (sorted_test : List unittest_s) (j i : Nat) : Bool :=
  match sorted_test[i]?, sorted_test[j]? with
  | some ti, some tj => decide (i ≠ j) && ti.depends_on.any (fun d => decide (tj.name = some d))
  | _, _ => false

/-- A dependency path from test `j` to test `i` in the resolved graph of a group. -/
def dep_path (sorted_test : List unittest_s) (j i : Nat) : Prop :=
  Relation.TransGen (fun x y => dep_edge sorted_test x y = true) j i

/-! ## Concrete inputs -/

/-- A test declared by the `unittest` macro at line `ln` of file `f`, with no
setup or teardown; its entry point is identified by the line. -/
def mk_test (f nm : String) (ln : Nat) (deps : List String) : unittest_s :=
  { file := some f, unique_id := 0, line := ln, fn := some ln, name := some nm,
    depends_on := deps, init := none, clean := none }

/-- A config declared by the `unittest_config` macro in file `f`, with no setup or teardown. -/
def mk_config (f nm : String) (deps : List String) : unittest_config_s :=
  { file := some f, unique_id := 0, name := some nm, depends_on := deps,
    init := none, clean := none }

/-- An entry point whose body is one passing assertion. -/
def one_succ (_ : unittest_s) (_ : unittest_config_s) (r : unittest_result_s) :
    unittest_result_s :=
  { r with succ := r.succ + 1 }

/-- The three tests of `example2.c`, in the order left by `unittest_sort`. -/
def example2_group : List unittest_s :=
  [mk_test "example2.c" "first test" 15 [],
   mk_test "example2.c" "second test" 25 ["first test"],
   mk_test "example2.c" "third test" 37 ["second test"]]

/-- A group of two tests, the first naming a dependency that no test carries. -/
def unresolved_group : List unittest_s :=
  [mk_test "a.c" "alpha" 1 ["nonexistent"], mk_test "a.c" "beta" 2 []]

/-- A group of three tests: "a" depends on "c", "b" and "c" depend on nothing. -/
def kahn_group : List unittest_s :=
  [mk_test "a.c" "a" 1 ["c"], mk_test "a.c" "b" 2 [], mk_test "a.c" "c" 3 []]

/-- A group of 33 tests: test 0, named "a", lists the name "b" eight times in
`depends_on`; tests 1 to 32 are named "b" and depend on nothing. Test 0 has
8 * 32 = 256 resolved incoming edges. -/
def wrap_group : List unittest_s :=
  mk_test "a.c" "a" 1 (List.replicate 8 "b") ::
    (List.range 32).map (fun k => mk_test "a.c" "b" (k + 2) [])

/-- The group `wrap_group` in which every test named "b" depends on "a". -/
def cyc_group : List unittest_s :=
  mk_test "a.c" "a" 1 (List.replicate 8 "b") ::
    (List.range 32).map (fun k => mk_test "a.c" "b" (k + 2) ["a"])

/-- The file names "f00.c", "f01.c", ... -/
def file_name (k : Nat) : String :=
  String.mk ['f', Char.ofNat (48 + k / 10), Char.ofNat (48 + k % 10), '.', 'c']

/-- One test in each of the 33 files "f00.c" to "f32.c". -/
def wrap_tests : List unittest_s :=
  (List.range 33).map (fun k => mk_test (file_name k) "t" 1 [])

/-- One config per file of `wrap_tests`: the group of "f00.c" is named "x" and
lists the name "y" eight times in `depends_on`; the 32 other groups are named
"y" and depend on nothing. -/
def wrap_configs : List unittest_config_s :=
  mk_config (file_name 0) "x" (List.replicate 8 "y") ::
    (List.range 32).map (fun k => mk_config (file_name (k + 1)) "y" [])

/-- The configs `wrap_configs` in which every group named "y" depends on "x". -/
def cyc_configs : List unittest_config_s :=
  mk_config (file_name 0) "x" (List.replicate 8 "y") ::
    (List.range 32).map (fun k => mk_config (file_name (k + 1)) "y" ["x"])

/-- Two tests of "a.c" and one test of "b.c", in the order left by `unittest_sort`. -/
def stale_tests : List unittest_s :=
  [mk_test "a.c" "x" 1 [], mk_test "a.c" "y" 2 [], mk_test "b.c" "x" 1 []]

/-- The configs of "a.c" (group "foo", depending on "bar") and of "b.c" (group "bar"). -/
def stale_configs : List unittest_config_s :=
  [mk_config "a.c" "foo" ["bar"], mk_config "b.c" "bar" []]

/-- One test of "a.c" and one test of "b.c". -/
def two_file_tests : List unittest_s :=
  [mk_test "a.c" "t" 1 [], mk_test "b.c" "t" 1 []]

/-- No row of the dependency graph has 256 entries or more: every `int8_t`
mark is zero only when the count it stands for is zero. -/
def NoWrap (dag0 : List (List Int)) : Prop := ∀ row ∈ dag0, row.length < 256

/-- All the tests whose name is a `depends_on` entry of test `x` are among `done`. -/
def ready (sorted_test : List unittest_s) (done : List Nat) (x : Nat) : Prop :=
  ∀ (j : Nat) (tx tj : unittest_s), j ≠ x → sorted_test[x]? = some tx →
    sorted_test[j]? = some tj → (∃ d ∈ tx.depends_on, tj.name = some d) → j ∈ done

/-- The node of the dependency graph a config stands for in
`unittest_toposort_by_group`: a node with the `name` and `depends_on` fields of
the config, written as a test so that the vocabulary of
`unittest_toposort_by_tag` applies to it. -/
def config_node (c : unittest_config_s) : unittest_s :=
  { unittest_s.zero with name := c.name, depends_on := c.depends_on }

/-- Conversion of an integer to `int` (reduction modulo `2^32` into `[-2^31, 2^31)`). -/
def int32 (x : Int) : Int := (x + 2147483648) % 4294967296 - 2147483648

/-- The function `unittest_compare`. The last key is the difference of the two
`uint64_t` lines, taken modulo `2^64` and converted to `int`. -/
def unittest_compare (a b : unittest_s) : Int :=
  if unittest_strcmp a.file b.file ≠ 0 then unittest_strcmp a.file b.file
  else if unittest_strcmp a.name b.name ≠ 0 then unittest_strcmp a.name b.name
  else int32 (((a.line : Int) - (b.line : Int)) % 18446744073709551616)

/-- The function `unittest_config_compare`. -/
def unittest_config_compare (a b : unittest_config_s) : Int :=
  unittest_strcmp a.file b.file

/-- The position `p` starts or ends one of the ranges of tests sharing a
`file` in the test sequence. -/
def file_range_bound (sorted_test : List unittest_s) (p : Nat) : Prop :=
  0 < sorted_test.length ∧ p ≤ sorted_test.length ∧
    (p = 0 ∨ p = sorted_test.length ∨
      (sorted_test.getD (p - 1) unittest_s.zero).file ≠ (sorted_test.getD p unittest_s.zero).file)

/-- A test as `mk_test` makes it, compiled with `UNITTEST_UNIQUE_ID` set to `id`. -/
def mk_test_id (f nm : String) (ln : Nat) (id : Int) : unittest_s :=
  { mk_test f nm ln [] with unique_id := id }

/-- Two tests of the header "t.h", included in two compilation units with
`UNITTEST_UNIQUE_ID` 1 and 2. -/
def header_tests : List unittest_s :=
  [mk_test_id "t.h" "x" 1 1, mk_test_id "t.h" "y" 2 2]

/-! ## Vocabulary for the execution loop -/

/-- The tests whose entry point a trace calls, in call order. -/
def entry_calls : List Event → List unittest_s
  | [] => []
  | Event.test_fn t _ _ _ :: es => t :: entry_calls es
  | _ :: es => entry_calls es

/-- The calls the execution loop is to make for one test `t` of a group with
config `c` and context `gctx`, `p` being the position of the first of them in
the trace: setup, entry point with the context setup returned, and teardown
with that context, when `t` declares both setup and teardown; the entry point
alone, with a `NULL` context, otherwise. -/
def scoped_test_calls (c : unittest_config_s) (gctx : Option Nat) (p : Nat) (t : unittest_s) :
    List Event :=
  if t.init ≠ none ∧ t.clean ≠ none then
    [Event.test_init t, Event.test_fn t c (some p) gctx, Event.test_clean t (some p)]
  else [Event.test_fn t c none gctx]

/-- The calls the execution loop is to make for the tests of a group, one
test after the other, from position `p` of the trace on. -/
def scoped_tests_calls (c : unittest_config_s) (gctx : Option Nat) :
    Nat → List unittest_s → List Event
  | _, [] => []
  | p, t :: ts =>
    scoped_test_calls c gctx p t ++
      scoped_tests_calls c gctx (p + (scoped_test_calls c gctx p t).length) ts

/-- The calls the execution loop is to make for a group, from position `p` of
the trace on: when the config declares both setup and teardown, setup, then
the calls of the tests with the context setup returned, then teardown with
that context after the last test; the calls of the tests with a `NULL` group
context otherwise. -/
def scoped_group_calls (c : unittest_config_s) (p : Nat) (tests : List unittest_s) :
    List Event :=
  if c.init ≠ none ∧ c.clean ≠ none then
    Event.group_init c :: scoped_tests_calls c (some p) (p + 1) tests ++
      [Event.group_clean c (some p)]
  else scoped_tests_calls c none p tests

/-- A group of 53 tests: test 0, named "a", lists the name "c" five times and
the name "d" once in `depends_on`; tests 1 to 51 are named "c" and test 52 is
named "d". Test 0 has 5 * 51 + 1 = 256 resolved incoming edges. -/
def dup_tests : List unittest_s :=
  mk_test "a.c" "a" 1 ["c", "c", "c", "c", "c", "d"] ::
    ((List.range 51).map (fun k => mk_test "a.c" "c" (k + 2) []) ++
      [mk_test "a.c" "d" 53 []])

/-! ## Discovery : the symbol dump

A C string being read is the list of its characters from the read position
on, the empty list standing for a position at the terminating `'\0'`. Moving
past the terminator and reading there makes a function return `none`.
-/

/-- The struct `unittest_nm_result_s`: `ptr` is the pointer as an integer
(0 is `NULL`), `name` the string held by the array `name`. -/
structure unittest_nm_result_s where
  ptr : Nat
  type : Char
  name : String
deriving DecidableEq

/-- The zero-valued `unittest_nm_result_s`, used as array terminator. -/
def unittest_nm_result_s.zero : unittest_nm_result_s :=
  { ptr := 0, type := Char.ofNat 0, name := "" }

/-- The libc function `isspace` in the "C" locale: space, `\t`, `\n`, `\v`,
`\f` and `\r`. -/
def isspace (c : Char) : Bool :=
  c = ' ' || c = '\t' || c = '\n' || c = Char.ofNat 11 || c = Char.ofNat 12 || c = '\r'

/-- The value of a hexadecimal digit. -/
def hex_digit (c : Char) : Option Nat :=
  if 48 ≤ c.toNat ∧ c.toNat ≤ 57 then some (c.toNat - 48)
  else if 97 ≤ c.toNat ∧ c.toNat ≤ 102 then some (c.toNat - 87)
  else if 65 ≤ c.toNat ∧ c.toNat ≤ 70 then some (c.toNat - 55)
  else none

/-- The digits read by `strtoll` in base 16: their value and the rest of the string. -/
def hex_digits : List Char → Nat → Nat × List Char
  | [], v => (v, [])
  | c :: cs, v =>
    match hex_digit c with
    | some d => hex_digits cs (16 * v + d)
    | none => (v, c :: cs)

/-- The string after the optional sign that `strtoll` reads. -/
def strtoll_sign (p : List Char) : List Char :=
  if p.head? = some '-' ∨ p.head? = some '+' then p.tail else p

/-- The string after the optional `0x` or `0X` that `strtoll` reads in base 16
when a hexadecimal digit follows it. -/
def strtoll_0x (p : List Char) : List Char :=
  match p with
  | z :: x :: d :: r =>
    if z = '0' ∧ (x = 'x' ∨ x = 'X') ∧ (hex_digit d).isSome then d :: r else p
  | _ => p

/-- The libc call `strtoll(p, &np, 16)` as ISO C defines it: white space is
skipped, then an optional sign and an optional `0x` or `0X` followed by
hexadecimal digits are read; the value is limited to the range of
`long long`; without digit the value is 0 and `np` is `p`. The result is the
value and the string at `np`. -/
def strtoll16 (p : List Char) : Int × List Char :=
  match strtoll_0x (strtoll_sign (p.dropWhile isspace)) with
  | [] => (0, p)
  | c :: r =>
    if (hex_digit c).isSome then
      (max (-9223372036854775808) (min 9223372036854775807
        (if (p.dropWhile isspace).head? = some '-' then -((hex_digits (c :: r) 0).1 : Int)
         else ((hex_digits (c :: r) 0).1 : Int))),
       (hex_digits (c :: r) 0).2)
    else (0, p)

/-- The loop `while(*sp != '\r' && *sp != '\n' && *sp != '\0') { sp++; }` of
`unittest_parse_nm_output`: the value of `sp - p`. -/
def line_length : List Char → Nat
  | [] => 0
  | c :: cs => if c = '\r' ∨ c = '\n' then 0 else line_length cs + 1

/-- The loop `while(*p != '\n' && name_idx < 254)` of `unittest_parse_nm_output`
with `k` characters still allowed: the characters copied and the string at
`p` after the loop. At the terminator the loop copies it and moves on. -/
def copy_name : Nat → List Char → Option (List Char × List Char)
  | 0, p => some ([], p)
  | _ + 1, [] => none
  | k + 1, c :: cs =>
    if c = '\n' then some ([], c :: cs)
    else match copy_name k cs with
      | none => none
      | some (nm, p) => some (c :: nm, p)

/-- The body of the `while` loop of `unittest_parse_nm_output` after the check
of the line: the record pushed and the string at `p` after the body. -/
def parse_record (p : List Char) : Option (unittest_nm_result_s × List Char) :=
  let ptr : Nat :=
    if isspace (p.headD (Char.ofNat 0)) then 0
    else ((strtoll16 p).1 % 18446744073709551616).toNat
  let p1 := if isspace (p.headD (Char.ofNat 0)) then p else (strtoll16 p).2
  match p1.dropWhile isspace with
  | [] => none
  | ty :: p2 =>
    let p3 := p2.dropWhile isspace
    let p4 := if p3.head? = some '_' then p3.tail else p3
    match copy_name 254 p4 with
    | none => none
    | some (nm, p5) =>
      some ({ ptr := ptr, type := ty, name := String.mk nm },
        p5.dropWhile (fun c => c = '\r' || c = '\n'))

/-- The `while` loop of `unittest_parse_nm_output`, with `fuel` iterations
allowed: the records pushed. Every iteration moves `p` forward, so that one
iteration more than the length of the string is never exceeded. -/
def parse_loop : Nat → List Char → Option (List unittest_nm_result_s)
  | 0, _ => none
  | fuel + 1, p =>
    if line_length p < 1 then some []
    else match parse_record p with
      | none => none
      | some (r, p2) =>
        match parse_loop fuel p2 with
        | none => none
        | some rs => some (r :: rs)

/-- The function `unittest_parse_nm_output`: the records of the returned
array, terminator included. -/
def unittest_parse_nm_output (str : String) : Option (List unittest_nm_result_s) :=
  match parse_loop (str.data.length + 1) str.data with
  | none => none
  | some rs => some (rs ++ [unittest_nm_result_s.zero])

/-! ## Discovery : the registry -/

/-- The function `unittest_startswith`: 0 when `str` starts with `pre`, 1 otherwise. -/
def unittest_startswith : List Char → List Char → Int
  | _, [] => 0
  | [], _ :: _ => 1
  | s :: ss, q :: qs => if s ≠ q then 1 else unittest_startswith ss qs

/-- The first loop of `unittest_get_unittest` and `unittest_get_unittest_config`:
the value of `offset` at the terminator, `main` being at `main_addr`. -/
def anchor_offset (main_addr : Nat) : List unittest_nm_result_s → Nat → Option Nat
  | [], _ => none
  | r :: rs, offset =>
    if r.type = Char.ofNat 0 then some offset
    else anchor_offset main_addr rs
      (if unittest_strcmp (some "main") (some r.name) = 0 then
        (((main_addr : Int) - (r.ptr : Int)) % 18446744073709551616).toNat
      else offset)

/-- The second loop of `unittest_get_unittest` and `unittest_get_unittest_config`:
what the accessors called return, `call a` being what the function at address
`a` returns. -/
def collect_accessors {α : Type} (call : Nat → α) (offset : Nat) (pre : String) :
    List unittest_nm_result_s → Option (List α)
  | [] => none
  | r :: rs =>
    if r.type = Char.ofNat 0 then some []
    else match collect_accessors call offset pre rs with
      | none => none
      | some l =>
        if unittest_startswith r.name.data pre.data = 0 then
          some (call ((r.ptr + offset) % 18446744073709551616) :: l)
        else some l

/-- The function `unittest_get_unittest`: `some none` is the `NULL` returned
when `offset` is still `-1` after the first loop. -/
def unittest_get_unittest (main_addr : Nat) (call : Nat → unittest_s)
    (res : List unittest_nm_result_s) : Option (Option (List unittest_s)) :=
  match anchor_offset main_addr res 18446744073709551615 with
  | none => none
  | some offset =>
    if offset = 18446744073709551615 then some none
    else match collect_accessors call offset "unittest_get_info_" res with
      | none => none
      | some l => some (some l)

/-- The function `unittest_get_unittest_config`. -/
def unittest_get_unittest_config (main_addr : Nat) (call : Nat → unittest_config_s)
    (res : List unittest_nm_result_s) : Option (Option (List unittest_config_s)) :=
  match anchor_offset main_addr res 18446744073709551615 with
  | none => none
  | some offset =>
    if offset = 18446744073709551615 then some none
    else match collect_accessors call offset "unittest_get_config_" res with
      | none => none
      | some l => some (some l)

/-- A symbol dump of two lines: a symbol whose name is the letter "z" 256
times, then `main`. -/
def long_name_dump : String :=
  String.mk ("0000000000001000 T ".data ++ List.replicate 256 'z' ++
    "\n0000000000002000 T main\n".data)

/-- A symbol table in which `main` is recorded at address 4097 and the
accessor of a test at address 8192. -/
def anchor_records : List unittest_nm_result_s :=
  [{ ptr := 4097, type := 'T', name := "main" },
   { ptr := 8192, type := 'T', name := "unittest_get_info_0_15" },
   unittest_nm_result_s.zero]

/-- A group of two tests that both bear the name "a" and list it in `depends_on`. -/
def twin_group : List unittest_s :=
  [mk_test "a.c" "a" 1 ["a"], mk_test "a.c" "a" 2 ["a"]]

/-- A group of two tests that both bear the name "a"; only the first lists it
in `depends_on`. -/
def twin_first_group : List unittest_s :=
  [mk_test "a.c" "a" 1 ["a"], mk_test "a.c" "a" 2 []]

/-- A group of four tests: "a" lists its own name once, "b" lists its own name
twice, and two tests named "c" list nothing. -/
def self_group : List unittest_s :=
  [mk_test "a.c" "a" 1 ["a"], mk_test "a.c" "b" 2 ["b", "b"],
   mk_test "a.c" "c" 3 [], mk_test "a.c" "c" 4 []]

/-- A group of two tests that depend on each other. -/
def loop_group : List unittest_s :=
  [mk_test "a.c" "a" 1 ["b"], mk_test "a.c" "b" 2 ["a"]]

/-- The configs of "a.c" (group "foo") and "b.c" (group "bar"), which depend
on each other. -/
def loop_configs : List unittest_config_s :=
  [mk_config "a.c" "foo" ["bar"], mk_config "b.c" "bar" ["foo"]]

/-- A group of 17 tests: test 0, named "a", lists the name "b" eight times in
`depends_on`; tests 1 to 16 are named "b" and depend on nothing. Test 0 has
8 * 16 = 128 resolved incoming edges. -/
def half_wrap_group : List unittest_s :=
  mk_test "a.c" "a" 1 (List.replicate 8 "b") ::
    (List.range 16).map (fun k => mk_test "a.c" "b" (k + 2) [])

/-- A group of two tests of "a.c": test 0, named "a", fills the 16 elements of
`depends_on` with the name "zz" and declares a setup and a teardown; test 1 is
named "a.c". No test is named "zz". -/
def overrun_group : List unittest_s :=
  [{ mk_test "a.c" "a" 1 (List.replicate 16 "zz") with init := some 1, clean := some 2 },
   mk_test "a.c" "a.c" 2 []]

/-! # Theorems -/

/-! ## Strings -/

theorem int8_zero : int8 0 = 0 := by decide

theorem int8_pred (c : Int) : int8 (int8 c - 1) = int8 (c - 1) := by
  unfold int8; omega

theorem int8_eq_zero_of_lt {c : Nat} (h : c < 256) (h0 : int8 (c : Int) = 0) : c = 0 := by
  unfold int8 at h0; omega

theorem strcmp_chars_eq_zero (a b : List Char) : strcmp_chars a b = 0 ↔ a = b := by
  induction a generalizing b with
  | nil => cases b <;> simp [strcmp_chars]
  | cons x xs ih =>
    cases b with
    | nil => simp [strcmp_chars]
    | cons y ys =>
      by_cases hxy : x = y
      · simp [strcmp_chars, hxy, ih]
      · by_cases hlt : x.toNat < y.toNat <;> simp [strcmp_chars, hxy, hlt]

theorem unittest_strcmp_some_eq_zero (nm : Option String) (d : String) :
    unittest_strcmp nm (some d) = 0 ↔ nm = some d := by
  cases nm with
  | none => simp [unittest_strcmp]
  | some x =>
    simp only [unittest_strcmp, strcmp, strcmp_chars_eq_zero, Option.some.injEq]
    constructor
    · intro h; exact String.ext h
    · intro h; rw [h]

/-! ## The dependency graph -/

theorem mem_dag_scan (i : Nat) (d : String) (names : List (Option String)) (j : Nat) (e : Int) :
    e ∈ dag_scan i d j names ↔
      ∃ k, e = ((j + k : Nat) : Int) ∧ j + k ≠ i ∧ names[k]? = some (some d) := by
  induction names generalizing j with
  | nil => simp [dag_scan]
  | cons nm rest ih =>
    have hstep : (∃ k, e = ((j + 1 + k : Nat) : Int) ∧ j + 1 + k ≠ i ∧ rest[k]? = some (some d)) ↔
        ∃ k, e = ((j + (k + 1) : Nat) : Int) ∧ j + (k + 1) ≠ i ∧ rest[k]? = some (some d) := by
      constructor <;> rintro ⟨k, h1, h2, h3⟩ <;> refine ⟨k, ?_, ?_, h3⟩ <;> omega
    have hsplit : (∃ k, e = ((j + k : Nat) : Int) ∧ j + k ≠ i ∧ (nm :: rest)[k]? = some (some d)) ↔
        (e = (j : Int) ∧ j ≠ i ∧ nm = some d) ∨
        ∃ k, e = ((j + (k + 1) : Nat) : Int) ∧ j + (k + 1) ≠ i ∧ rest[k]? = some (some d) := by
      constructor
      · rintro ⟨k, h1, h2, h3⟩
        cases k with
        | zero => left; exact ⟨by simpa using h1, by simpa using h2, by simpa using h3⟩
        | succ k => right; exact ⟨k, h1, h2, by simpa using h3⟩
      · rintro (⟨h1, h2, h3⟩ | ⟨k, h1, h2, h3⟩)
        · exact ⟨0, by simpa using h1, by simpa using h2, by simpa using h3⟩
        · exact ⟨k + 1, h1, h2, by simpa using h3⟩
    rw [hsplit, ← hstep, ← ih (j + 1)]
    simp only [dag_scan]
    by_cases hij : i = j
    · simp only [hij, if_true]
      constructor
      · intro h; right; exact h
      · rintro (⟨_, h2, _⟩ | h)
        · exact absurd rfl h2
        · exact h
    · by_cases hs : unittest_strcmp nm (some d) = 0
      · have hnm := (unittest_strcmp_some_eq_zero nm d).1 hs
        simp only [hij, hs, if_false, if_true, List.mem_cons]
        constructor
        · rintro (h | h)
          · left; exact ⟨h, fun h => hij h.symm, hnm⟩
          · right; exact h
        · rintro (⟨h1, _, _⟩ | h)
          · left; exact h1
          · right; exact h
      · have hnm : nm ≠ some d := fun h => hs ((unittest_strcmp_some_eq_zero nm d).2 h)
        simp only [hij, hs, if_false]
        constructor
        · intro h; right; exact h
        · rintro (⟨_, _, h3⟩ | h)
          · exact absurd h3 hnm
          · exact h

theorem mem_dag_row (names : List (Option String)) (i : Nat) (deps : List String) (e : Int) :
    e ∈ dag_row_term names i deps ↔
      ∃ d ∈ deps, ∃ k : Nat, e = (k : Int) ∧ k ≠ i ∧ names[k]? = some (some d) := by
  induction deps with
  | nil => simp [dag_row_term]
  | cons d ds ih =>
    simp only [dag_row_term, List.mem_append, mem_dag_scan, ih, List.mem_cons, Nat.zero_add]
    constructor
    · rintro (⟨k, h⟩ | ⟨d', hd', k, h⟩)
      · exact ⟨d, Or.inl rfl, k, h⟩
      · exact ⟨d', Or.inr hd', k, h⟩
    · rintro ⟨d', hd' | hd', k, h⟩
      · left; subst hd'; exact ⟨k, h⟩
      · right; exact ⟨d', hd', k, h⟩

theorem length_build_dag_from (names : List (Option String)) (i : Nat) (deps : List (List String)) :
    (build_dag_from_term names i deps).length = deps.length := by
  induction deps generalizing i with
  | nil => rfl
  | cons d ds ih => simp [build_dag_from_term, ih]

theorem getElem?_build_dag_from (names : List (Option String)) (i : Nat)
    (deps : List (List String)) (x : Nat) :
    (build_dag_from_term names i deps)[x]? = (deps[x]?).map (fun ds => dag_row_term names (i + x) ds) := by
  induction deps generalizing i x with
  | nil => simp [build_dag_from_term]
  | cons d ds ih =>
    cases x with
    | zero => simp [build_dag_from_term]
    | succ x =>
      simp only [build_dag_from_term, List.getElem?_cons_succ, ih]
      congr 1; funext ds; congr 1; omega

/-! ## The sort loop -/

theorem pushed_append (res : List Nat) (k : Nat) (e : Int) :
    pushed (res ++ [k]) e = (pushed res e || decide ((k : Int) = e)) := by
  simp [pushed]

theorem pushed_iff (res : List Nat) (e : Int) : pushed res e = true ↔ ∃ k ∈ res, (k : Int) = e := by
  simp [pushed]

theorem pushed_cast (res : List Nat) (k : Nat) : pushed res (k : Int) = true ↔ k ∈ res := by
  simp [pushed]

theorem mask_nil (row : List Int) : mask [] row = row := by
  simp [mask, pushed]

theorem live_nil (row : List Int) : live [] row = row.length := by
  induction row with
  | nil => rfl
  | cons e es ih => simp [live, pushed, ih]

theorem live_le_length (res : List Nat) (row : List Int) : live res row ≤ row.length := by
  induction row with
  | nil => simp [live]
  | cons e es ih => simp only [live, List.length_cons]; split <;> omega

theorem live_append_le (res : List Nat) (k : Nat) (row : List Int) :
    live (res ++ [k]) row ≤ live res row := by
  induction row with
  | nil => simp [live]
  | cons e es ih =>
    simp only [live, pushed_append]
    by_cases h : pushed res e = true
    · simp [h, ih]
    · by_cases h2 : (k : Int) = e
      · simp [h, h2]; omega
      · simp [h, h2, ih]

theorem live_eq_zero_iff (res : List Nat) (row : List Int) :
    live res row = 0 ↔ ∀ e ∈ row, pushed res e = true := by
  induction row with
  | nil => simp [live]
  | cons e es ih =>
    simp only [live, List.mem_cons, forall_eq_or_imp]
    by_cases h : pushed res e = true
    · simp [h, ih]
    · simp [h]

theorem delete_row_dag_mask (res : List Nat) (k : Nat) (row : List Int) :
    delete_row_dag (k : Int) (mask res row) = mask (res ++ [k]) row := by
  induction row with
  | nil => rfl
  | cons e es ih =>
    simp only [delete_row_dag, mask, List.map_cons, List.cons.injEq] at ih ⊢
    refine ⟨?_, ih⟩
    rw [pushed_append]
    by_cases h : pushed res e = true
    · have : (-1 : Int) ≠ (k : Int) := by omega
      simp [h, this]
    · by_cases h2 : (k : Int) = e
      · simp [h, h2]
      · have h3 : ¬ e = (k : Int) := fun h => h2 h.symm
        simp [h, h2, h3]

theorem delete_row_mark_mask (res : List Nat) (k : Nat) (row : List Int) (c : Int) :
    delete_row_mark (k : Int) (mask res row) (int8 (c + (live res row : Int))) =
      int8 (c + (live (res ++ [k]) row : Int)) := by
  induction row generalizing c with
  | nil => simp [mask, delete_row_mark, live]
  | cons e es ih =>
    have hm : mask res (e :: es) = (if pushed res e then -1 else e) :: mask res es := rfl
    have hl : ∀ r, live r (e :: es) = if pushed r e then live r es else live r es + 1 :=
      fun _ => rfl
    rw [hm, hl, hl, pushed_append]
    by_cases h : pushed res e = true
    · have hk : (-1 : Int) ≠ (k : Int) := by omega
      rw [if_pos h, if_pos h, delete_row_mark, if_neg hk, if_pos (by simp [h])]
      exact ih c
    · by_cases h2 : e = (k : Int)
      · subst h2
        rw [if_neg h, if_neg h, delete_row_mark, if_pos rfl, if_pos (by simp), int8_pred]
        have h3 : c + ((live res es + 1 : Nat) : Int) - 1 = c + (live res es : Int) := by
          push_cast; omega
        rw [h3]
        exact ih c
      · have h3 : ¬ (k : Int) = e := fun h => h2 h.symm
        rw [if_neg h, if_neg h, delete_row_mark, if_neg h2, if_neg (by simp [h, h3])]
        have h4 : ∀ n : Nat, c + ((n + 1 : Nat) : Int) = c + 1 + (n : Int) := by
          intro n; push_cast; omega
        rw [h4, h4]
        exact ih (c + 1)

theorem delete_row_dag_neg (k : Nat) (r : List Int) (h : ∀ e ∈ r, e = -1) :
    delete_row_dag (k : Int) r = r := by
  induction r with
  | nil => rfl
  | cons e es ih =>
    have he : e = -1 := h e (List.mem_cons_self _ _)
    have hes : ∀ e ∈ es, e = -1 := fun e he => h e (List.mem_cons_of_mem _ he)
    have hk : (-1 : Int) ≠ (k : Int) := by omega
    simp only [delete_row_dag, List.map_cons, List.cons.injEq] at ih ⊢
    exact ⟨by simp [he, hk], ih hes⟩

theorem delete_row_mark_neg (k : Nat) (r : List Int) (m : Int) (h : ∀ e ∈ r, e = -1) :
    delete_row_mark (k : Int) r m = m := by
  induction r with
  | nil => rfl
  | cons e es ih =>
    have he : e = -1 := h e (List.mem_cons_self _ _)
    have hes : ∀ e ∈ es, e = -1 := fun e he => h e (List.mem_cons_of_mem _ he)
    have hk : (-1 : Int) ≠ (k : Int) := by omega
    simp only [delete_row_mark, he, hk, if_false]
    exact ih hes

theorem length_delete_edges_dag (k j : Nat) (dag : List (List Int)) :
    (delete_edges_dag k j dag).length = dag.length := by
  induction dag generalizing j with
  | nil => rfl
  | cons r rs ih => simp [delete_edges_dag, ih]

theorem getElem?_delete_edges_dag (k j : Nat) (dag : List (List Int)) (x : Nat) :
    (delete_edges_dag k j dag)[x]? =
      (dag[x]?).map (fun row => if k = j + x then row else delete_row_dag (k : Int) row) := by
  induction dag generalizing j x with
  | nil => simp [delete_edges_dag]
  | cons r rs ih =>
    cases x with
    | zero => simp [delete_edges_dag]
    | succ x =>
      simp only [delete_edges_dag, List.getElem?_cons_succ, ih]
      congr 1; funext row
      have : j + 1 + x = j + (x + 1) := by omega
      rw [this]

theorem length_delete_edges_mark (k j : Nat) (dag : List (List Int)) (mark : List Int)
    (h : dag.length = mark.length) : (delete_edges_mark k j dag mark).length = mark.length := by
  induction dag generalizing j mark with
  | nil => cases mark with
    | nil => simp [delete_edges_mark]
    | cons m ms => simp at h
  | cons r rs ih =>
    cases mark with
    | nil => simp at h
    | cons m ms =>
      simp only [delete_edges_mark, List.length_cons]
      rw [ih (j + 1) ms (by simpa using h)]

theorem getElem?_delete_edges_mark (k j : Nat) (dag : List (List Int)) (mark : List Int)
    (x : Nat) (row : List Int) (m : Int) (h1 : dag[x]? = some row) (h2 : mark[x]? = some m) :
    (delete_edges_mark k j dag mark)[x]? =
      some (if k = j + x then m else delete_row_mark (k : Int) row m) := by
  induction dag generalizing j mark x with
  | nil => simp at h1
  | cons r rs ih =>
    cases mark with
    | nil => simp at h2
    | cons m' ms =>
      cases x with
      | zero =>
        simp only [List.getElem?_cons_zero, Option.some.injEq] at h1 h2
        simp [delete_edges_mark, h1, h2]
      | succ x =>
        simp only [List.getElem?_cons_succ] at h1 h2
        simp only [delete_edges_mark, List.getElem?_cons_succ]
        rw [ih (j + 1) ms x h1 h2]
        have : j + 1 + x = j + (x + 1) := by omega
        rw [this]

theorem find_zero_some (j : Nat) (ms : List Int) (k : Nat) (h : find_zero j ms = some k) :
    ∃ i : Nat, k = j + i ∧ ms[i]? = some 0 ∧
      ∀ (i' : Nat) (m : Int), i' < i → ms[i']? = some m → m ≠ 0 := by
  induction ms generalizing j with
  | nil => simp [find_zero] at h
  | cons m ms ih =>
    simp only [find_zero] at h
    by_cases hm : m = 0
    · simp only [hm, if_true, Option.some.injEq] at h
      refine ⟨0, by omega, ?_, ?_⟩
      · simp [hm]
      · intro i' m' hi'; omega
    · simp only [hm, if_false] at h
      obtain ⟨i, h1, h2, h3⟩ := ih (j + 1) h
      refine ⟨i + 1, by omega, by simpa using h2, ?_⟩
      intro i' m' hi' hm'
      cases i' with
      | zero => simp at hm'; rw [← hm']; exact hm
      | succ i' => exact h3 i' m' (by omega) (by simpa using hm')

theorem find_zero_none (j : Nat) (ms : List Int) (h : find_zero j ms = none) :
    ∀ (i : Nat) (m : Int), ms[i]? = some m → m ≠ 0 := by
  induction ms generalizing j with
  | nil => simp
  | cons m ms ih =>
    simp only [find_zero] at h
    by_cases hm : m = 0
    · simp [hm] at h
    · simp only [hm, if_false] at h
      intro i m' hm'
      cases i with
      | zero => simp at hm'; rw [← hm']; exact hm
      | succ i => exact ih (j + 1) h i m' (by simpa using hm')

theorem mask_all_neg (res : List Nat) (row : List Int) (h : live res row = 0) :
    ∀ e ∈ mask res row, e = -1 := by
  intro e he
  simp only [mask, List.mem_map] at he
  obtain ⟨e0, he0, rfl⟩ := he
  simp [(live_eq_zero_iff res row).1 h e0 he0]

theorem Inv_init (dag0 : List (List Int)) : Inv dag0 dag0 (build_mark dag0) [] where
  len_dag := rfl
  len_mark := by simp [build_mark]
  todo := by
    intro x row _ hrow
    refine ⟨by rw [mask_nil]; exact hrow, ?_⟩
    simp [build_mark, hrow, live_nil]
  done := by
    intro x row hx
    simp at hx

theorem Inv_step {dag0 dag : List (List Int)} {mark : List Int} {res : List Nat} {k : Nat}
    (h : Inv dag0 dag mark res) (hk : find_zero 0 mark = some k) :
    Pick dag0 res k ∧
      Inv dag0 (delete_edges_dag k 0 dag)
        (delete_edges_mark k 0 dag (mark.set k (-1))) (res ++ [k]) := by
  obtain ⟨i, hki, hmk, hmin⟩ := find_zero_some 0 mark k hk
  have hik : i = k := by omega
  subst hik
  have hklt : i < mark.length := by
    rcases Nat.lt_or_ge i mark.length with h1 | h1
    · exact h1
    · rw [List.getElem?_eq_none_iff.2 h1] at hmk; simp at hmk
  have hk0 : i < dag0.length := by rw [← h.len_mark]; exact hklt
  have hnotin : ∀ row, dag0[i]? = some row → row.length < 256 → i ∉ res := by
    intro row hrow hlen hin
    have := (h.done i row hin hrow hlen).2.1
    rw [hmk] at this
    simp at this
  have hpick : Pick dag0 res i := by
    refine ⟨hk0, ?_, ?_, hnotin⟩
    · intro a row ha hares hrow
      exact hmin a _ ha (h.todo a row hares hrow).2
    · intro row hires hrow
      have := (h.todo i row hires hrow).2
      rw [hmk] at this
      simp only [Option.some.injEq] at this
      exact this.symm
  refine ⟨hpick, ?_⟩
  have hlen_set : dag.length = (mark.set i (-1)).length := by
    rw [List.length_set, h.len_dag, h.len_mark]
  constructor
  · rw [length_delete_edges_dag]; exact h.len_dag
  · rw [length_delete_edges_mark _ _ _ _ hlen_set, List.length_set]; exact h.len_mark
  · intro x row hx hrow
    have hxres : x ∉ res := fun hh => hx (List.mem_append_left _ hh)
    have hxk : x ≠ i := fun hh => hx (by simp [hh])
    have hik : ¬ i = 0 + x := by omega
    obtain ⟨hd, hm⟩ := h.todo x row hxres hrow
    constructor
    · rw [getElem?_delete_edges_dag, hd]
      simp only [Option.map_some', if_neg hik, delete_row_dag_mask]
    · have hm2 : (mark.set i (-1))[x]? = some (int8 (live res row : Int)) := by
        rw [List.getElem?_set_ne (fun hh => hxk hh.symm)]; exact hm
      rw [getElem?_delete_edges_mark i 0 dag _ x _ _ hd hm2, if_neg hik]
      have := delete_row_mark_mask res i row 0
      simp only [zero_add] at this
      rw [this]
  · intro x row hx hrow hlen
    by_cases hxk : x = i
    · subst hxk
      have hxres : x ∉ res := hnotin row hrow hlen
      obtain ⟨hd, hm⟩ := h.todo x row hxres hrow
      have hz : int8 (live res row : Int) = 0 := by
        rw [hmk] at hm
        simp only [Option.some.injEq] at hm
        exact hm.symm
      have hl : live res row = 0 :=
        int8_eq_zero_of_lt (Nat.lt_of_le_of_lt (live_le_length res row) hlen) hz
      refine ⟨⟨mask res row, ?_, mask_all_neg res row hl⟩, ?_, ?_⟩
      · rw [getElem?_delete_edges_dag, hd]; simp
      · have hm2 : (mark.set x (-1))[x]? = some (-1) := by
          rw [List.getElem?_set_self hklt]
        rw [getElem?_delete_edges_mark x 0 dag _ x _ _ hd hm2]; simp
      · have := live_append_le res x row; omega
    · have hxres : x ∈ res := by
        rcases List.mem_append.1 hx with h1 | h1
        · exact h1
        · simp at h1; exact absurd h1 hxk
      have hik : ¬ i = 0 + x := by omega
      obtain ⟨⟨r, hr, hneg⟩, hm, hl⟩ := h.done x row hxres hrow hlen
      refine ⟨⟨r, ?_, hneg⟩, ?_, ?_⟩
      · rw [getElem?_delete_edges_dag, hr]
        simp only [Option.map_some', if_neg hik, delete_row_dag_neg i r hneg]
      · have hm2 : (mark.set i (-1))[x]? = some (-1) := by
          rw [List.getElem?_set_ne (fun hh => hxk hh.symm)]; exact hm
        rw [getElem?_delete_edges_mark i 0 dag _ x _ _ hr hm2, if_neg hik,
          delete_row_mark_neg i r _ hneg]
      · have := live_append_le res i row; omega

theorem Inv_stuck {dag0 dag : List (List Int)} {mark : List Int} {res : List Nat}
    (h : Inv dag0 dag mark res) (hk : find_zero 0 mark = none) : Stuck dag0 res := by
  intro x row hx hrow
  exact find_zero_none 0 mark hk x _ (h.todo x row hx hrow).2

theorem sort_loop_spec (dag0 : List (List Int)) (m : Nat) :
    ∀ (dag : List (List Int)) (mark : List Int) (res : List Nat),
      Inv dag0 dag mark res → Sched dag0 res →
      Sched dag0 (sort_loop m dag mark res).2 ∧
      ((sort_loop m dag mark res).1 = true →
        (sort_loop m dag mark res).2.length = res.length + m) ∧
      ((sort_loop m dag mark res).1 = false →
        (sort_loop m dag mark res).2.length < res.length + m ∧
          Stuck dag0 (sort_loop m dag mark res).2) := by
  induction m with
  | zero =>
    intro dag mark res _ hs
    simp [sort_loop, hs]
  | succ m ih =>
    intro dag mark res hinv hs
    cases hk : find_zero 0 mark with
    | none =>
      simp only [sort_loop, hk]
      exact ⟨hs, by simp, fun _ => ⟨by omega, Inv_stuck hinv hk⟩⟩
    | some k =>
      simp only [sort_loop, hk]
      obtain ⟨hpick, hinv2⟩ := Inv_step hinv hk
      obtain ⟨h1, h2, h3⟩ := ih _ _ _ hinv2 (Sched.snoc res k hs hpick)
      refine ⟨h1, ?_, ?_⟩
      · intro ht; rw [h2 ht]; simp; omega
      · intro hf
        obtain ⟨h4, h5⟩ := h3 hf
        refine ⟨?_, h5⟩
        simp at h4; omega

/-- What the run of the "sort" loop guarantees on the graph built from the names. -/
theorem toposort_run_spec (names : List (Option String)) (deps : List (List String)) :
    Sched (build_dag_term names deps) (toposort_run_term names deps).2 ∧
    ((toposort_run_term names deps).1 = true → (toposort_run_term names deps).2.length = names.length) ∧
    ((toposort_run_term names deps).1 = false →
      (toposort_run_term names deps).2.length < names.length ∧
        Stuck (build_dag_term names deps) (toposort_run_term names deps).2) := by
  have := sort_loop_spec (build_dag_term names deps) names.length (build_dag_term names deps)
    (build_mark (build_dag_term names deps)) [] (Inv_init _) Sched.nil
  simpa [toposort_run_term] using this

/-! ## Consequences for the sort of a group -/

theorem Sched_ready {dag0 : List (List Int)} {ord : List Nat} (hs : Sched dag0 ord) :
    ∀ (q a b : Nat) (row : List Int), a < b → ord[q]? = some b → dag0[a]? = some row →
      (∀ e ∈ row, ∃ r j : Nat, r < q ∧ ord[r]? = some j ∧ (j : Int) = e) →
      ∃ p, p < q ∧ ord[p]? = some a := by
  induction hs with
  | nil => intro q a b row _ hq; simp at hq
  | snoc res k _ hpick ih =>
    intro q a b row hab hq hrow hdeps
    by_cases hlt : q < res.length
    · rw [List.getElem?_append_left hlt] at hq
      have hdeps2 : ∀ e ∈ row, ∃ r j : Nat, r < q ∧ res[r]? = some j ∧ (j : Int) = e := by
        intro e he
        obtain ⟨r, j, hr, hj, hje⟩ := hdeps e he
        rw [List.getElem?_append_left (by omega)] at hj
        exact ⟨r, j, hr, hj, hje⟩
      obtain ⟨p, hp, hpa⟩ := ih q a b row hab hq hrow hdeps2
      exact ⟨p, hp, by rw [List.getElem?_append_left (by omega)]; exact hpa⟩
    · have hqlen : q = res.length := by
        rcases Nat.lt_or_ge res.length q with h1 | h1
        · rw [List.getElem?_eq_none_iff.2 (by simp; omega)] at hq; simp at hq
        · omega
      subst hqlen
      have hbk : k = b := by simpa using hq
      subst hbk
      by_cases hares : a ∈ res
      · obtain ⟨p, hp, hpa⟩ := List.getElem_of_mem hares
        refine ⟨p, hp, ?_⟩
        rw [List.getElem?_append_left hp, List.getElem?_eq_getElem hp, hpa]
      · exfalso
        have hl : live res row = 0 := by
          rw [live_eq_zero_iff]
          intro e he
          obtain ⟨r, j, hr, hj, hje⟩ := hdeps e he
          rw [List.getElem?_append_left hr] at hj
          rw [pushed_iff]
          exact ⟨j, List.getElem?_mem hj, hje⟩
        have := hpick.2.1 a row hab hares hrow
        rw [hl] at this
        exact this int8_zero

theorem Sched_range {dag0 : List (List Int)} {ord : List Nat} (hs : Sched dag0 ord)
    (hempty : ∀ (x : Nat) (row : List Int), dag0[x]? = some row → row = []) :
    ord = List.range ord.length := by
  induction hs with
  | nil => rfl
  | snoc res k _ hpick ih =>
    obtain ⟨hk, hlow, _, hnew⟩ := hpick
    have hrowk : dag0[k]? = some [] := by
      have h1 : dag0[k]? = some dag0[k] := List.getElem?_eq_getElem hk
      rw [h1, hempty k _ h1]
    have hkres : k ∉ res := hnew [] hrowk (by simp)
    have hmem : ∀ a, a ∈ res ↔ a < res.length := by
      intro a; rw [ih]; simp
    have hge : res.length ≤ k := by
      rcases Nat.lt_or_ge k res.length with h1 | h1
      · exact absurd ((hmem k).2 h1) hkres
      · exact h1
    have hle : k ≤ res.length := by
      rcases Nat.lt_or_ge res.length k with h1 | h1
      · exfalso
        have hnot : res.length ∉ res := fun h => Nat.lt_irrefl _ ((hmem _).1 h)
        have h2 : res.length < dag0.length := by omega
        have h3 : dag0[res.length]? = some dag0[res.length] := List.getElem?_eq_getElem h2
        have h4 := hlow res.length _ h1 hnot h3
        rw [hempty _ _ h3] at h4
        exact h4 (by simp [live, int8_zero])
      · exact h1
    have hkeq : k = res.length := by omega
    rw [List.length_append, List.length_singleton, List.range_succ, ← ih, hkeq]

theorem map_getD_range (l : List unittest_s) :
    (List.range l.length).map (fun i => l.getD i unittest_s.zero) = l := by
  apply List.ext_getElem
  · simp
  · intro i h1 h2
    simp [List.getD_eq_getElem?_getD, List.getElem?_eq_getElem h2]

theorem length_build_dag (names : List (Option String)) (deps : List (List String)) :
    (build_dag_term names deps).length = deps.length := length_build_dag_from names 0 deps

theorem tag_dag_row (sorted_test : List unittest_s) (x : Nat) (row : List Int)
    (h : (build_dag_term (sorted_test.map (fun t => t.name))
      (sorted_test.map (fun t => t.depends_on)))[x]? = some row) :
    ∃ tx, sorted_test[x]? = some tx ∧
      row = dag_row_term (sorted_test.map (fun t => t.name)) x tx.depends_on := by
  rw [build_dag_term, getElem?_build_dag_from] at h
  simp only [List.getElem?_map, Option.map_map, Option.map_eq_some', Function.comp] at h
  obtain ⟨tx, htx, hrow⟩ := h
  exact ⟨tx, htx, by rw [← hrow]; simp⟩

theorem by_tag_of_order (sorted_test : List unittest_s) (ord : List Nat)
    (h : tag_order_term sorted_test = some ord) :
    Sched (build_dag_term (sorted_test.map (fun t => t.name))
      (sorted_test.map (fun t => t.depends_on))) ord ∧
    ord.length = sorted_test.length ∧
    toposort_by_tag_term sorted_test =
      (0, ord.map (fun node_id => sorted_test.getD node_id unittest_s.zero)) := by
  have hspec := toposort_run_spec (sorted_test.map (fun t => t.name))
    (sorted_test.map (fun t => t.depends_on))
  simp only [tag_order_term, toposort_order_term] at h
  split at h
  · rename_i hok
    simp only [Option.some.injEq] at h
    rw [h] at hspec
    have hlen : ord.length = sorted_test.length := by simpa using hspec.2.1 hok
    refine ⟨hspec.1, hlen, ?_⟩
    simp only [toposort_by_tag_term, tag_order_term, toposort_order_term, hok, if_true, h]
    simp [hlen]
  · simp at h

theorem Sched_lt {dag0 : List (List Int)} {ord : List Nat} (hs : Sched dag0 ord) :
    ∀ k ∈ ord, k < dag0.length := by
  induction hs with
  | nil => intro k hk; simp at hk
  | snoc res k _ hpick ih =>
    intro x hx
    rcases List.mem_append.1 hx with h | h
    · exact ih x h
    · simp at h; rw [h]; exact hpick.1

/-! ## The sort loop when no count reaches 256 -/

theorem Sched_pick_at {dag0 : List (List Int)} {ord : List Nat} (hs : Sched dag0 ord) :
    ∀ (q k : Nat), ord[q]? = some k → Pick dag0 (ord.take q) k := by
  induction hs with
  | nil => intro q k hq; simp at hq
  | snoc res k' _ hpick ih =>
    intro q k hq
    by_cases hlt : q < res.length
    · rw [List.getElem?_append_left hlt] at hq
      rw [List.take_append_of_le_length (Nat.le_of_lt hlt)]
      exact ih q k hq
    · have hqlen : q = res.length := by
        rcases Nat.lt_or_ge res.length q with h1 | h1
        · rw [List.getElem?_eq_none_iff.2 (by simp; omega)] at hq; simp at hq
        · omega
      subst hqlen
      have hk : k' = k := by simpa using hq
      subst hk
      simpa using hpick

theorem Sched_nodup {dag0 : List (List Int)} {ord : List Nat} (hs : Sched dag0 ord)
    (hb : NoWrap dag0) : ord.Nodup := by
  induction hs with
  | nil => simp
  | snoc res k _ hpick ih =>
    have hk := hpick.1
    have hnot : k ∉ res :=
      hpick.2.2.2 _ (List.getElem?_eq_getElem hk) (hb _ (List.getElem_mem hk))
    rw [List.nodup_append]
    exact ⟨ih, by simp, by simpa using hnot⟩

theorem Sched_perm {dag0 : List (List Int)} {ord : List Nat} (hs : Sched dag0 ord)
    (hb : NoWrap dag0) (hlen : ord.length = dag0.length) :
    ord.Perm (List.range dag0.length) := by
  have hsub : ord ⊆ List.range dag0.length := by
    intro k hk
    simpa using Sched_lt hs k hk
  exact (List.subperm_of_subset (Sched_nodup hs hb) hsub).perm_of_length_le (by simp [hlen])

theorem Pick_live_zero {dag0 : List (List Int)} {res : List Nat} {k : Nat}
    (hpick : Pick dag0 res k) (hb : NoWrap dag0) (row : List Int) (hrow : dag0[k]? = some row) :
    k ∉ res ∧ live res row = 0 := by
  have hlen : row.length < 256 := hb _ (List.getElem?_mem hrow)
  have hnot := hpick.2.2.2 row hrow hlen
  exact ⟨hnot, int8_eq_zero_of_lt (Nat.lt_of_le_of_lt (live_le_length res row) hlen)
    (hpick.2.2.1 row hnot hrow)⟩

theorem tag_names_getElem? (sorted_test : List unittest_s) (k : Nat) (d : String) :
    (sorted_test.map (fun t => t.name))[k]? = some (some d) ↔
      ∃ tk, sorted_test[k]? = some tk ∧ tk.name = some d := by
  simp [List.getElem?_map]

theorem tag_ready_iff (sorted_test : List unittest_s) (done : List Nat) (x : Nat)
    (row : List Int)
    (hrow : (build_dag_term (sorted_test.map (fun t => t.name))
      (sorted_test.map (fun t => t.depends_on)))[x]? = some row) :
    live done row = 0 ↔ ready sorted_test done x := by
  obtain ⟨tx, htx, rfl⟩ := tag_dag_row sorted_test x row hrow
  rw [live_eq_zero_iff]
  constructor
  · intro h j tx' tj hjx htx' htj hd
    rw [htx] at htx'
    simp only [Option.some.injEq] at htx'
    subst htx'
    obtain ⟨d, hd, hname⟩ := hd
    have hmem : (j : Int) ∈ dag_row_term (sorted_test.map (fun t => t.name)) x tx.depends_on :=
      (mem_dag_row _ _ _ _).2 ⟨d, hd, j, rfl, hjx, (tag_names_getElem? _ _ _).2 ⟨tj, htj, hname⟩⟩
    exact (pushed_cast done j).1 (h _ hmem)
  · intro h e he
    obtain ⟨d, hd, k, hek, hkx, hk⟩ := (mem_dag_row _ _ _ _).1 he
    obtain ⟨tk, htk, hname⟩ := (tag_names_getElem? _ _ _).1 hk
    rw [hek]
    exact (pushed_cast done k).2 (h k tx tk hkx htx htk ⟨d, hd, hname⟩)

/-- When no test of the group has 256 resolved incoming edges or more and the
sort succeeds, the push order is a permutation of the tests, and the test
pushed at each position `q` is the lowest-indexed test that is not among the
first `q` outputs and all of whose resolved dependencies are. -/
theorem tag_order_lowest_ready (sorted_test : List unittest_s) (ord : List Nat)
    (hord : tag_order_term sorted_test = some ord)
    (hb : NoWrap (build_dag_term (sorted_test.map (fun t => t.name))
      (sorted_test.map (fun t => t.depends_on)))) :
    ord.Perm (List.range sorted_test.length) ∧
    ∀ (q k : Nat), ord[q]? = some k →
      k ∉ ord.take q ∧ ready sorted_test (ord.take q) k ∧
      ∀ a, a < k → a ∉ ord.take q → ¬ ready sorted_test (ord.take q) a := by
  obtain ⟨hs, hlen, _⟩ := by_tag_of_order sorted_test ord hord
  have hdl : (build_dag_term (sorted_test.map (fun t => t.name))
      (sorted_test.map (fun t => t.depends_on))).length = sorted_test.length := by
    rw [length_build_dag]; simp
  refine ⟨?_, ?_⟩
  · have := Sched_perm hs hb (by rw [hdl]; exact hlen)
    rwa [hdl] at this
  · intro q k hq
    have hpick := Sched_pick_at hs q k hq
    have hrow := List.getElem?_eq_getElem hpick.1
    obtain ⟨hnot, hl⟩ := Pick_live_zero hpick hb _ hrow
    refine ⟨hnot, (tag_ready_iff _ _ _ _ hrow).1 hl, ?_⟩
    intro a hak hanot hready
    have hrowa := List.getElem?_eq_getElem (Nat.lt_trans hak hpick.1)
    have hla := (tag_ready_iff _ _ _ _ hrowa).2 hready
    have := hpick.2.1 a _ hak hanot hrowa
    rw [hla] at this
    exact this int8_zero

/-- When no test of the group has 256 resolved incoming edges or more and the
sort succeeds, every test whose name is a `depends_on` entry of another test
`i` is pushed before `i`. -/
theorem tag_order_respects_deps (sorted_test : List unittest_s) (ord : List Nat)
    (hord : tag_order_term sorted_test = some ord)
    (hb : NoWrap (build_dag_term (sorted_test.map (fun t => t.name))
      (sorted_test.map (fun t => t.depends_on))))
    (i j : Nat) (ti tj : unittest_s) (hij : i ≠ j) (hi : sorted_test[i]? = some ti)
    (hj : sorted_test[j]? = some tj) (hd : ∃ d ∈ ti.depends_on, tj.name = some d) :
    ∃ p q : Nat, p < q ∧ ord[p]? = some j ∧ ord[q]? = some i := by
  obtain ⟨hperm, hpick⟩ := tag_order_lowest_ready sorted_test ord hord hb
  have hilt : i < sorted_test.length := by
    rcases Nat.lt_or_ge i sorted_test.length with h | h
    · exact h
    · rw [List.getElem?_eq_none_iff.2 h] at hi; simp at hi
  have himem : i ∈ ord := hperm.mem_iff.2 (by simpa using hilt)
  obtain ⟨q, hq⟩ := List.mem_iff_getElem?.1 himem
  have hjmem := (hpick q i hq).2.1 j ti tj (fun h => hij h.symm) hi hj hd
  obtain ⟨p, hp⟩ := List.mem_iff_getElem?.1 hjmem
  rw [List.getElem?_take] at hp
  split at hp
  · exact ⟨p, q, by assumption, hp, hq⟩
  · simp at hp

/-! ## Cycles -/

theorem dep_edge_iff (sorted_test : List unittest_s) (j i : Nat) :
    dep_edge sorted_test j i = true ↔
      i ≠ j ∧ ∃ ti tj, sorted_test[i]? = some ti ∧ sorted_test[j]? = some tj ∧
        ∃ d ∈ ti.depends_on, tj.name = some d := by
  unfold dep_edge
  cases hi : sorted_test[i]? with
  | none => simp
  | some ti =>
    cases hj : sorted_test[j]? with
    | none => simp
    | some tj => simp

theorem by_tag_fst (sorted_test : List unittest_s) :
    ((toposort_by_tag_term sorted_test).1 = 0 ↔ ∃ ord, tag_order_term sorted_test = some ord) ∧
    ((toposort_by_tag_term sorted_test).1 = -1 ↔ tag_order_term sorted_test = none) := by
  cases h : tag_order_term sorted_test with
  | none => simp [toposort_by_tag_term, h]
  | some ord =>
    rw [(by_tag_of_order sorted_test ord h).2.2]
    simp

theorem exists_cycle_of_pred (n : Nat) (U : Nat → Prop) (R : Nat → Nat → Prop)
    (hU : ∀ x, U x → x < n) (h : ∀ x, U x → ∃ y, U y ∧ R y x) (x0 : Nat) (h0 : U x0) :
    ∃ x, Relation.TransGen R x x := by
  classical
  let f : Nat → Nat := fun x => if hx : U x then Classical.choose (h x hx) else x
  have hf : ∀ x, U x → U (f x) ∧ R (f x) x := by
    intro x hx
    have := Classical.choose_spec (h x hx)
    simpa [f, hx] using this
  have hg : ∀ i, U (f^[i] x0) := by
    intro i
    induction i with
    | zero => simpa using h0
    | succ i ih =>
      rw [Function.iterate_succ_apply']
      exact (hf _ ih).1
  have hstep : ∀ i, R (f^[i + 1] x0) (f^[i] x0) := by
    intro i
    rw [Function.iterate_succ_apply']
    exact (hf _ (hg i)).2
  have hpath : ∀ d i, Relation.TransGen R (f^[i + d + 1] x0) (f^[i] x0) := by
    intro d
    induction d with
    | zero => intro i; exact Relation.TransGen.single (hstep i)
    | succ d ih =>
      intro i
      exact Relation.TransGen.head (hstep (i + d + 1)) (ih i)
  let g : Nat → Fin n := fun i => ⟨f^[i] x0, hU _ (hg i)⟩
  obtain ⟨i, j, hij, hgij⟩ := Finite.exists_ne_map_eq_of_infinite g
  have hval : f^[i] x0 = f^[j] x0 := congrArg Fin.val hgij
  rcases Nat.lt_or_gt_of_ne hij with hlt | hlt
  · refine ⟨f^[i] x0, ?_⟩
    have := hpath (j - i - 1) i
    rw [show i + (j - i - 1) + 1 = j by omega, ← hval] at this
    exact this
  · refine ⟨f^[j] x0, ?_⟩
    have := hpath (i - j - 1) j
    rw [show j + (i - j - 1) + 1 = i by omega, hval] at this
    exact this

/-- Whenever `toposort_by_tag_term` reports a circular dependency, the
resolved dependency graph of the group has a directed cycle. -/
theorem toposort_by_tag_fails_cycle (sorted_test : List unittest_s)
    (h : (toposort_by_tag_term sorted_test).1 = -1) :
    ∃ x, dep_path sorted_test x x := by
  have hnone := (by_tag_fst sorted_test).2.1 h
  have hspec := toposort_run_spec (sorted_test.map (fun t => t.name))
    (sorted_test.map (fun t => t.depends_on))
  have hf : (toposort_run_term (sorted_test.map (fun t => t.name))
      (sorted_test.map (fun t => t.depends_on))).1 = false := by
    simp only [tag_order_term, toposort_order_term] at hnone
    split at hnone
    · simp at hnone
    · rename_i hne
      exact Bool.eq_false_iff.2 hne
  obtain ⟨hlt, hstuck⟩ := hspec.2.2 hf
  set ord := (toposort_run_term (sorted_test.map (fun t => t.name))
    (sorted_test.map (fun t => t.depends_on))).2 with hord
  have hdl : (build_dag_term (sorted_test.map (fun t => t.name))
      (sorted_test.map (fun t => t.depends_on))).length = sorted_test.length := by
    rw [length_build_dag]; simp
  have hex : ∃ x0, x0 < sorted_test.length ∧ x0 ∉ ord := by
    by_contra hcon
    have hsub : List.range sorted_test.length ⊆ ord := by
      intro x hx
      by_contra hxo
      exact hcon ⟨x, by simpa using hx, hxo⟩
    have := (List.subperm_of_subset (List.nodup_range _) hsub).length_le
    simp at this hlt
    omega
  obtain ⟨x0, hx0, hx0o⟩ := hex
  refine exists_cycle_of_pred sorted_test.length
    (fun x => x < sorted_test.length ∧ x ∉ ord) (fun y x => dep_edge sorted_test y x = true)
    (fun x hx => hx.1) ?_ x0 ⟨hx0, hx0o⟩
  intro x ⟨hxlt, hxo⟩
  have hrow := List.getElem?_eq_getElem (show x < (build_dag_term (sorted_test.map (fun t => t.name))
    (sorted_test.map (fun t => t.depends_on))).length by rw [hdl]; exact hxlt)
  have hne := hstuck x _ hxo hrow
  obtain ⟨tx, htx, hrow2⟩ := tag_dag_row sorted_test x _ hrow
  have hlive : ¬ live ord (dag_row_term (sorted_test.map (fun t => t.name)) x tx.depends_on) = 0 := by
    intro hz
    rw [hrow2, hz] at hne
    exact hne int8_zero
  rw [live_eq_zero_iff] at hlive
  push_neg at hlive
  obtain ⟨e, he, hpe⟩ := hlive
  obtain ⟨d, hd, k, hek, hkx, hk⟩ := (mem_dag_row _ _ _ _).1 he
  obtain ⟨tk, htk, hname⟩ := (tag_names_getElem? _ _ _).1 hk
  have hklt : k < sorted_test.length := by
    rcases Nat.lt_or_ge k sorted_test.length with h1 | h1
    · exact h1
    · rw [List.getElem?_eq_none_iff.2 h1] at htk; simp at htk
  have hko : k ∉ ord := by
    intro hin
    exact hpe (by rw [hek]; exact (pushed_cast ord k).2 hin)
  exact ⟨k, ⟨hklt, hko⟩, (dep_edge_iff _ _ _).2 ⟨fun hh => hkx hh.symm, tx, tk, htx, htk, d, hd, hname⟩⟩

/-- When no test of the group has 256 resolved incoming edges or more and
`toposort_by_tag_term` returns 0, the resolved dependency graph has no
directed cycle. -/
theorem toposort_by_tag_ok_acyclic (sorted_test : List unittest_s)
    (hb : NoWrap (build_dag_term (sorted_test.map (fun t => t.name))
      (sorted_test.map (fun t => t.depends_on))))
    (h : (toposort_by_tag_term sorted_test).1 = 0) :
    ∀ x, ¬ dep_path sorted_test x x := by
  obtain ⟨ord, hord⟩ := (by_tag_fst sorted_test).1.1 h
  have hnodup : ord.Nodup :=
    (tag_order_lowest_ready sorted_test ord hord hb).1.nodup_iff.2 (List.nodup_range _)
  have hedge : ∀ j i, dep_edge sorted_test j i = true → ord.indexOf j < ord.indexOf i := by
    intro j i hji
    obtain ⟨hij, ti, tj, hi, hj, hd⟩ := (dep_edge_iff _ _ _).1 hji
    obtain ⟨p, q, hpq, hp, hq⟩ := tag_order_respects_deps sorted_test ord hord hb i j ti tj hij hi hj hd
    have hidx : ∀ (r v : Nat), ord[r]? = some v → ord.indexOf v = r := by
      intro r v hr
      obtain ⟨hrlt, hrv⟩ := List.getElem?_eq_some.1 hr
      rw [← hrv]
      exact List.indexOf_getElem hnodup r hrlt
    rw [hidx p j hp, hidx q i hq]
    exact hpq
  have hpath : ∀ j i, dep_path sorted_test j i → ord.indexOf j < ord.indexOf i := by
    intro j i hji
    induction hji with
    | single h1 => exact hedge _ _ h1
    | tail _ h2 ih => exact Nat.lt_trans ih (hedge _ _ h2)
  intro x hx
  exact Nat.lt_irrefl _ (hpath x x hx)

/-- When no test of the group has 256 resolved incoming edges or more,
`toposort_by_tag_term` returns -1 exactly when the resolved dependency
graph has a directed cycle, and returns 0 otherwise. -/
theorem toposort_by_tag_fails_iff_cycle (sorted_test : List unittest_s)
    (hb : NoWrap (build_dag_term (sorted_test.map (fun t => t.name))
      (sorted_test.map (fun t => t.depends_on)))) :
    ((toposort_by_tag_term sorted_test).1 = -1 ↔ ∃ x, dep_path sorted_test x x) ∧
    ((toposort_by_tag_term sorted_test).1 = 0 ↔ ¬ ∃ x, dep_path sorted_test x x) := by
  have hcases : (toposort_by_tag_term sorted_test).1 = 0 ∨
      (toposort_by_tag_term sorted_test).1 = -1 := by
    cases h : tag_order_term sorted_test with
    | none => right; exact (by_tag_fst sorted_test).2.2 h
    | some ord => left; exact (by_tag_fst sorted_test).1.2 ⟨ord, h⟩
  have h1 := toposort_by_tag_fails_cycle sorted_test
  have h2 := toposort_by_tag_ok_acyclic sorted_test hb
  refine ⟨⟨h1, ?_⟩, ⟨?_, ?_⟩⟩
  · rintro ⟨x, hx⟩
    rcases hcases with h0 | h0
    · exact absurd hx (h2 h0 x)
    · exact h0
  · rintro h0 ⟨x, hx⟩
    exact h2 h0 x hx
  · intro hno
    rcases hcases with h0 | h0
    · exact h0
    · exact absurd (h1 h0) hno

/-! ## The bound on the reads of `depends_on` -/

/-- The loop `while(*d != NULL)` over `slots` elements builds the row of
`dag_row_term` when the list of entries is shorter than `slots`, and reads
outside the array otherwise. -/
theorem dag_row_eq (names : List (Option String)) (i : Nat) (deps : List String) :
    ∀ slots : Nat, dag_row names i slots deps =
      if deps.length < slots then some (dag_row_term names i deps) else none := by
  induction deps with
  | nil =>
    intro slots
    cases slots with
    | zero => simp [dag_row]
    | succ s => simp [dag_row, dag_row_term]
  | cons d ds ih =>
    intro slots
    cases slots with
    | zero => simp [dag_row]
    | succ s =>
      simp only [dag_row, ih s, List.length_cons, Nat.add_lt_add_iff_right, dag_row_term]
      by_cases h : ds.length < s
      · simp [h]
      · simp [h]

theorem build_dag_from_eq (names : List (Option String)) (deps : List (List String)) :
    ∀ i : Nat, null_terminated deps →
      build_dag_from names i deps = some (build_dag_from_term names i deps) := by
  induction deps with
  | nil => intro i _; rfl
  | cons d ds ih =>
    intro i h
    have hd : d.length < 16 := h d (List.mem_cons_self _ _)
    have hds : null_terminated ds := fun x hx => h x (List.mem_cons_of_mem _ hx)
    simp only [build_dag_from, dag_row_eq, if_pos hd, ih (i + 1) hds, build_dag_from_term]

theorem build_dag_from_none (names : List (Option String)) (deps : List (List String)) :
    ∀ i : Nat, ¬ null_terminated deps → build_dag_from names i deps = none := by
  induction deps with
  | nil => intro i h; exact absurd (fun d hd => by simp at hd) h
  | cons d ds ih =>
    intro i h
    by_cases hd : d.length < 16
    · have hds : ¬ null_terminated ds := by
        intro hds
        apply h
        intro x hx
        rcases List.mem_cons.1 hx with rfl | hx
        · exact hd
        · exact hds x hx
      simp only [build_dag_from, dag_row_eq, if_pos hd, ih (i + 1) hds]
    · simp only [build_dag_from, dag_row_eq, if_neg hd]

/-- "build dag" builds the rows of `build_dag_term` when every `depends_on`
array holds a `NULL`. -/
theorem build_dag_eq (names : List (Option String)) (deps : List (List String))
    (h : null_terminated deps) : build_dag names deps = some (build_dag_term names deps) :=
  build_dag_from_eq names deps 0 h

/-- "build dag" reads outside a `depends_on` array when one of them holds no `NULL`. -/
theorem build_dag_none (names : List (Option String)) (deps : List (List String))
    (h : ¬ null_terminated deps) : build_dag names deps = none :=
  build_dag_from_none names deps 0 h

theorem toposort_run_eq (names : List (Option String)) (deps : List (List String))
    (h : null_terminated deps) :
    toposort_run names deps = some (toposort_run_term names deps) := by
  simp only [toposort_run, build_dag_eq names deps h, toposort_run_term]

theorem toposort_run_none (names : List (Option String)) (deps : List (List String))
    (h : ¬ null_terminated deps) : toposort_run names deps = none := by
  simp only [toposort_run, build_dag_none names deps h]

theorem toposort_run_some (names : List (Option String)) (deps : List (List String))
    (run : Bool × List Nat) (h : toposort_run names deps = some run) :
    null_terminated deps ∧ run = toposort_run_term names deps := by
  by_cases ht : null_terminated deps
  · rw [toposort_run_eq names deps ht] at h
    exact ⟨ht, (Option.some.inj h).symm⟩
  · rw [toposort_run_none names deps ht] at h
    simp at h

theorem null_terminated_map (sorted_test : List unittest_s) :
    null_terminated (sorted_test.map (fun t => t.depends_on)) ↔
      ∀ t ∈ sorted_test, t.depends_on.length < 16 := by
  simp [null_terminated]

theorem toposort_order_eq (names : List (Option String)) (deps : List (List String))
    (h : null_terminated deps) :
    toposort_order names deps = toposort_order_term names deps := by
  simp only [toposort_order, toposort_run_eq names deps h, toposort_order_term]
  generalize toposort_run_term names deps = run
  obtain ⟨b, res⟩ := run
  cases b <;> simp

/-- The push order of a group is that of `tag_order_term` when every
`depends_on` array holds a `NULL`. -/
theorem tag_order_eq (sorted_test : List unittest_s)
    (h : ∀ t ∈ sorted_test, t.depends_on.length < 16) :
    tag_order sorted_test = tag_order_term sorted_test :=
  toposort_order_eq _ _ ((null_terminated_map sorted_test).2 h)

theorem tag_order_some (sorted_test : List unittest_s) (ord : List Nat)
    (h : tag_order sorted_test = some ord) :
    (∀ t ∈ sorted_test, t.depends_on.length < 16) ∧ tag_order_term sorted_test = some ord := by
  by_cases ht : null_terminated (sorted_test.map (fun t => t.depends_on))
  · have h2 := (null_terminated_map sorted_test).1 ht
    exact ⟨h2, by rw [← tag_order_eq sorted_test h2]; exact h⟩
  · simp [tag_order, toposort_order, toposort_run_none _ _ ht] at h

/-- `unittest_toposort_by_tag` returns what `toposort_by_tag_term` gives when
every `depends_on` array holds a `NULL`. -/
theorem toposort_by_tag_eq (sorted_test : List unittest_s)
    (h : ∀ t ∈ sorted_test, t.depends_on.length < 16) :
    unittest_toposort_by_tag sorted_test = some (toposort_by_tag_term sorted_test) := by
  have ht := (null_terminated_map sorted_test).2 h
  simp only [unittest_toposort_by_tag, toposort_run_eq _ _ ht, toposort_by_tag_term,
    tag_order_term, toposort_order_term]
  generalize toposort_run_term (sorted_test.map (fun t => t.name))
    (sorted_test.map (fun t => t.depends_on)) = run
  obtain ⟨b, res⟩ := run
  cases b
  · simp
  · by_cases hl : res.length ≠ sorted_test.length
    · simp [hl]
    · simp [hl]

/-- `unittest_toposort_by_tag` reads outside a `depends_on` array when one of
them holds no `NULL`. -/
theorem toposort_by_tag_none (sorted_test : List unittest_s)
    (h : ¬ ∀ t ∈ sorted_test, t.depends_on.length < 16) :
    unittest_toposort_by_tag sorted_test = none := by
  have ht : ¬ null_terminated (sorted_test.map (fun t => t.depends_on)) :=
    fun hh => h ((null_terminated_map sorted_test).1 hh)
  simp only [unittest_toposort_by_tag, toposort_run_none _ _ ht]

theorem toposort_by_tag_some (sorted_test : List unittest_s) (r : Int × List unittest_s)
    (h : unittest_toposort_by_tag sorted_test = some r) :
    (∀ t ∈ sorted_test, t.depends_on.length < 16) ∧ r = toposort_by_tag_term sorted_test := by
  by_cases ht : ∀ t ∈ sorted_test, t.depends_on.length < 16
  · rw [toposort_by_tag_eq sorted_test ht] at h
    exact ⟨ht, (Option.some.inj h).symm⟩
  · rw [toposort_by_tag_none sorted_test ht] at h
    simp at h

/-! ## Consequences for `unittest_toposort_by_group` and `unittest_main` -/

theorem config_node_names (config : List unittest_config_s) :
    (config.map config_node).map (fun t => t.name) = config.map (fun c => c.name) := by
  simp [List.map_map, config_node, Function.comp_def]

theorem config_node_deps (config : List unittest_config_s) :
    (config.map config_node).map (fun t => t.depends_on) =
      config.map (fun c => c.depends_on) := by
  simp [List.map_map, config_node, Function.comp_def]

theorem group_run_eq (config : List unittest_config_s) :
    toposort_run_term (config.map (fun c => c.name)) (config.map (fun c => c.depends_on)) =
      toposort_run_term ((config.map config_node).map (fun t => t.name))
        ((config.map config_node).map (fun t => t.depends_on)) := by
  rw [config_node_names, config_node_deps]

theorem tag_order_eq_run (sorted_test : List unittest_s) :
    tag_order_term sorted_test =
      if (toposort_run_term (sorted_test.map (fun t => t.name))
          (sorted_test.map (fun t => t.depends_on))).1
      then some (toposort_run_term (sorted_test.map (fun t => t.name))
          (sorted_test.map (fun t => t.depends_on))).2
      else none := rfl

/-- What a successful `unittest_toposort_by_group` does: with `ord` the order
in which the groups were pushed, the rewritten config array holds the configs
in that order and the rewritten test array the blocks of tests of the groups
in that order; and when no group has 256 resolved incoming edges or more,
`ord` is a permutation of the groups in which every group whose name is a
`depends_on` entry of another group `g` comes before `g`. -/
theorem toposort_by_group_ok (sorted_test : List unittest_s) (test_cnt : Nat)
    (sorted_config : List unittest_config_s) (file_idx : List Int) (file_cnt : Nat)
    (out_test : List unittest_s) (out_config : List unittest_config_s)
    (h : unittest_toposort_by_group sorted_test test_cnt sorted_config file_idx file_cnt =
      some (0, out_test, out_config)) :
    ∃ (ord : List Nat) (test_buf : List unittest_s),
      tag_order_term ((sorted_config.take file_cnt).map config_node) = some ord ∧
      out_config = ord.map (fun file_id =>
        (sorted_config.take file_cnt).getD file_id unittest_config_s.zero) ++
          sorted_config.drop file_cnt ∧
      push_groups sorted_test file_idx ord = some test_buf ∧
      (∃ written, utkv_view unittest_s.zero test_buf test_cnt = some written ∧
        out_test = written ++ sorted_test.drop test_cnt) ∧
      (NoWrap (build_dag_term ((sorted_config.take file_cnt).map (fun c => c.name))
          ((sorted_config.take file_cnt).map (fun c => c.depends_on))) →
        ord.Perm (List.range file_cnt) ∧
        ∀ (g k : Nat) (cg ck : unittest_config_s), g ≠ k →
          (sorted_config.take file_cnt)[g]? = some cg →
          (sorted_config.take file_cnt)[k]? = some ck →
          (∃ d ∈ cg.depends_on, ck.name = some d) →
          ∃ p q : Nat, p < q ∧ ord[p]? = some k ∧ ord[q]? = some g) := by
  unfold unittest_toposort_by_group at h
  split at h
  · simp at h
  · rename_i hlen
    simp only at h
    split at h
    · simp at h
    · rename_i run hrun
      obtain ⟨_, hrun2⟩ := toposort_run_some _ _ _ hrun
      subst hrun2
      split at h
      · simp at h
      · rename_i test_buf hbuf
        split at h
        · simp at h
        · rename_i hok
          split at h
          · simp at h
          · split at h
            · simp at h
            · rename_i written hw
              simp only [Option.some.injEq, Prod.mk.injEq, true_and] at h
              have hok2 : (toposort_run_term ((sorted_config.take file_cnt).map (fun c => c.name))
                  ((sorted_config.take file_cnt).map (fun c => c.depends_on))).1 = true := by
                simpa using hok
              have hord : tag_order_term ((sorted_config.take file_cnt).map config_node) =
                  some (toposort_run_term ((sorted_config.take file_cnt).map (fun c => c.name))
                    ((sorted_config.take file_cnt).map (fun c => c.depends_on))).2 := by
                rw [tag_order_eq_run, ← group_run_eq, hok2]
                simp
              refine ⟨_, test_buf, hord, h.2.symm, hbuf, ⟨written, hw, h.1.symm⟩, ?_⟩
              intro hb
              have hb2 : NoWrap (build_dag_term
                  (((sorted_config.take file_cnt).map config_node).map (fun t => t.name))
                  (((sorted_config.take file_cnt).map config_node).map (fun t => t.depends_on))) := by
                rw [config_node_names, config_node_deps]; exact hb
              have hcnt : ((sorted_config.take file_cnt).map config_node).length = file_cnt := by
                simp only [List.length_map, List.length_take]
                omega
              refine ⟨?_, ?_⟩
              · have := (tag_order_lowest_ready _ _ hord hb2).1
                rwa [hcnt] at this
              · intro g k cg ck hgk hg hk hd
                refine tag_order_respects_deps _ _ hord hb2 g k (config_node cg) (config_node ck)
                  hgk ?_ ?_ ?_
                · rw [List.getElem?_map, hg]; rfl
                · rw [List.getElem?_map, hk]; rfl
                · simpa [config_node] using hd

/-- When no group has 256 resolved incoming edges or more and the resolved
dependency graph of the groups has a directed cycle,
`unittest_toposort_by_group` does not return 0. -/
theorem toposort_by_group_cycle (sorted_test : List unittest_s) (test_cnt : Nat)
    (sorted_config : List unittest_config_s) (file_idx : List Int) (file_cnt : Nat)
    (out_test : List unittest_s) (out_config : List unittest_config_s)
    (hb : NoWrap (build_dag_term ((sorted_config.take file_cnt).map (fun c => c.name))
      ((sorted_config.take file_cnt).map (fun c => c.depends_on))))
    (hc : ∃ x, dep_path ((sorted_config.take file_cnt).map config_node) x x) :
    unittest_toposort_by_group sorted_test test_cnt sorted_config file_idx file_cnt ≠
      some (0, out_test, out_config) := by
  intro h
  obtain ⟨ord, _, hord, _⟩ := toposort_by_group_ok _ _ _ _ _ _ _ h
  have hb2 : NoWrap (build_dag_term
      (((sorted_config.take file_cnt).map config_node).map (fun t => t.name))
      (((sorted_config.take file_cnt).map config_node).map (fun t => t.depends_on))) := by
    rw [config_node_names, config_node_deps]; exact hb
  have h0 := (by_tag_fst ((sorted_config.take file_cnt).map config_node)).1.2 ⟨ord, hord⟩
  obtain ⟨x, hx⟩ := hc
  exact toposort_by_tag_ok_acyclic _ hb2 h0 x hx

/-- Whenever a run of `unittest_main` returns 1, no setup, entry point or
teardown was called. -/
theorem main_failure_runs_nothing
    (body : unittest_s → unittest_config_s → unittest_result_s → unittest_result_s)
    (test : List unittest_s) (config : List unittest_config_s) (run : Run)
    (h : unittest_main body test config = some run) (hs : run.status ≠ 0) :
    run.status = 1 ∧ run.trace = [] := by
  unfold unittest_main at h
  split at h
  · simp at h
  · simp only at h
    split at h
    · simp at h
    · simp only [Option.some.injEq] at h
      subst h
      exact ⟨rfl, rfl⟩
    · split at h
      · simp at h
      · split at h
        · simp at h
        · split at h
          · simp only [Option.some.injEq] at h
            subst h
            exact ⟨rfl, rfl⟩
          · split at h
            · simp at h
            · simp only [Option.some.injEq] at h
              subst h
              simp at hs


/-! ## The file index -/

theorem file_index_loop_shape (prev : unittest_s) (ts : List unittest_s) (cnt : Nat) :
    ∃ body : List Nat,
      file_index_loop prev ts cnt = body.map Int.ofNat ++ [-1] ∧
      body.getLast? = some (cnt + unittest_get_total_test_count ts) ∧
      body.Pairwise (fun p q => p < q) ∧
      (∀ p ∈ body, cnt ≤ p ∧ p ≤ cnt + unittest_get_total_test_count ts) ∧
      (∀ j, j < unittest_get_total_test_count ts →
        (cnt + j ∈ body ↔
          unittest_match ((prev :: ts).getD j unittest_s.zero).file
            ((prev :: ts).getD j unittest_s.zero).unique_id
            (ts.getD j unittest_s.zero).file (ts.getD j unittest_s.zero).unique_id ≠ 0)) ∧
      (∀ c, file_count_loop prev ts c + 1 = c + body.length) := by
  induction ts generalizing prev cnt with
  | nil =>
    refine ⟨[cnt], ?_, ?_, ?_, ?_, ?_, ?_⟩ <;>
      simp [file_index_loop, unittest_get_total_test_count, file_count_loop]
  | cons t ts ih =>
    by_cases hf : t.file = none
    · refine ⟨[cnt], ?_, ?_, ?_, ?_, ?_, ?_⟩ <;>
        simp [file_index_loop, unittest_get_total_test_count, file_count_loop, hf]
    · obtain ⟨body, h1, h2, h3, h4, h5, h6⟩ := ih t (cnt + 1)
      have htot : unittest_get_total_test_count (t :: ts) =
          unittest_get_total_test_count ts + 1 := by
        simp [unittest_get_total_test_count, hf]
      have hcnt : cnt ∉ body := fun h => by have := (h4 cnt h).1; omega
      have hmem : ∀ j, j < unittest_get_total_test_count ts →
          (cnt + (j + 1) ∈ body ↔
            unittest_match ((prev :: t :: ts).getD (j + 1) unittest_s.zero).file
              ((prev :: t :: ts).getD (j + 1) unittest_s.zero).unique_id
              ((t :: ts).getD (j + 1) unittest_s.zero).file
              ((t :: ts).getD (j + 1) unittest_s.zero).unique_id ≠ 0) := by
        intro j hj
        have := h5 j hj
        rw [show cnt + 1 + j = cnt + (j + 1) by omega] at this
        simpa using this
      obtain ⟨b, bs, hb⟩ : ∃ b bs, body = b :: bs := by
        cases body with
        | nil => simp at h2
        | cons b bs => exact ⟨b, bs, rfl⟩
      by_cases hd : unittest_match prev.file prev.unique_id t.file t.unique_id ≠ 0
      · refine ⟨cnt :: body, ?_, ?_, ?_, ?_, ?_, ?_⟩
        · simp [file_index_loop, hf, hd, h1]
        · rw [hb, List.getLast?_cons_cons, ← hb, h2, htot]
          congr 1; omega
        · rw [List.pairwise_cons]
          exact ⟨fun p hp => by have := h4 p hp; omega, h3⟩
        · intro p hp
          rw [htot]
          rcases List.mem_cons.1 hp with h | h
          · omega
          · have := h4 p h; omega
        · intro j hj
          cases j with
          | zero => simpa using hd
          | succ j =>
            rw [htot] at hj
            rw [← hmem j (by omega), List.mem_cons]
            constructor
            · rintro (h | h)
              · omega
              · exact h
            · intro h; exact Or.inr h
        · intro c
          have h7 := h6 (c + 1)
          have h8 : file_count_loop prev (t :: ts) c = file_count_loop t ts (c + 1) := by
            simp only [file_count_loop]
            rw [if_neg hf, if_pos hd]
          rw [h8, List.length_cons]
          omega
      · refine ⟨body, ?_, ?_, h3, ?_, ?_, ?_⟩
        · simp [file_index_loop, hf, hd, h1]
        · rw [h2, htot]; congr 1; omega
        · intro p hp
          rw [htot]
          have := h4 p hp; omega
        · intro j hj
          cases j with
          | zero =>
            simp only [Nat.add_zero, List.getD_cons_zero]
            exact ⟨fun h => absurd h hcnt, fun h => absurd h hd⟩
          | succ j =>
            rw [htot] at hj
            exact hmem j (by omega)
        · intro c
          have h7 := h6 c
          have h8 : file_count_loop prev (t :: ts) c = file_count_loop t ts c := by
            simp only [file_count_loop]
            rw [if_neg hf, if_neg hd]
          rw [h8]
          exact h7

theorem build_file_index_shape (sorted_test : List unittest_s) :
    ∃ body : List Nat,
      unittest_build_file_index sorted_test = body.map Int.ofNat ++ [-1] ∧
      body.head? = some 0 ∧
      body.getLast? = some (unittest_get_total_test_count sorted_test) ∧
      body.Pairwise (fun p q => p < q) ∧
      (∀ p ∈ body, p ≤ unittest_get_total_test_count sorted_test) ∧
      (∀ p, 0 < p → p < unittest_get_total_test_count sorted_test →
        (p ∈ body ↔
          unittest_match (sorted_test.getD (p - 1) unittest_s.zero).file
            (sorted_test.getD (p - 1) unittest_s.zero).unique_id
            (sorted_test.getD p unittest_s.zero).file
            (sorted_test.getD p unittest_s.zero).unique_id ≠ 0)) ∧
      body.length = unittest_get_total_file_count sorted_test + 1 := by
  cases sorted_test with
  | nil =>
    refine ⟨[0], ?_, ?_, ?_, ?_, ?_, ?_, ?_⟩ <;>
      simp [unittest_build_file_index, unittest_get_total_test_count,
        unittest_get_total_file_count]
  | cons t ts =>
    by_cases hf : t.file = none
    · refine ⟨[0], ?_, ?_, ?_, ?_, ?_, ?_, ?_⟩ <;>
        simp [unittest_build_file_index, unittest_get_total_test_count,
          unittest_get_total_file_count, hf]
    · obtain ⟨body, h1, h2, h3, h4, h5, h6⟩ := file_index_loop_shape t ts 1
      have htot : unittest_get_total_test_count (t :: ts) =
          unittest_get_total_test_count ts + 1 := by
        simp [unittest_get_total_test_count, hf]
      obtain ⟨b, bs, hb⟩ : ∃ b bs, body = b :: bs := by
        cases body with
        | nil => simp at h2
        | cons b bs => exact ⟨b, bs, rfl⟩
      refine ⟨0 :: body, ?_, ?_, ?_, ?_, ?_, ?_, ?_⟩
      · simp [unittest_build_file_index, hf, h1]
      · simp
      · rw [hb, List.getLast?_cons_cons, ← hb, h2, htot]
        congr 1; omega
      · rw [List.pairwise_cons]
        exact ⟨fun p hp => by have := h4 p hp; omega, h3⟩
      · intro p hp
        rw [htot]
        rcases List.mem_cons.1 hp with h | h
        · omega
        · have := h4 p h; omega
      · intro p hp hpn
        obtain ⟨j, rfl⟩ : ∃ j, p = j + 1 := ⟨p - 1, by omega⟩
        rw [htot] at hpn
        have := h5 j (by omega)
        rw [show 1 + j = j + 1 by omega] at this
        simp only [Nat.add_sub_cancel, List.getD_cons_succ]
        rw [← this, List.mem_cons]
        constructor
        · rintro (h | h)
          · omega
          · exact h
        · intro h; exact Or.inr h
      · have := h6 1
        simp only [unittest_get_total_file_count, hf, if_false, List.length_cons]
        omega

/-! ## Config compensation -/

theorem strcmp_chars_range (a b : List Char) :
    strcmp_chars a b = -1 ∨ strcmp_chars a b = 0 ∨ strcmp_chars a b = 1 := by
  induction a generalizing b with
  | nil => cases b <;> simp [strcmp_chars]
  | cons x xs ih =>
    cases b with
    | nil => simp [strcmp_chars]
    | cons y ys =>
      by_cases hxy : x = y
      · simpa [strcmp_chars, hxy] using ih ys
      · by_cases hlt : x.toNat < y.toNat <;> simp [strcmp_chars, hxy, hlt]

theorem char_toNat_inj {x y : Char} (h : x.toNat = y.toNat) : x = y := by
  apply Char.ext
  apply UInt32.ext
  simpa [Char.toNat, UInt32.toNat] using h

theorem strcmp_chars_swap (a b : List Char) : strcmp_chars b a = - strcmp_chars a b := by
  induction a generalizing b with
  | nil => cases b <;> simp [strcmp_chars]
  | cons x xs ih =>
    cases b with
    | nil => simp [strcmp_chars]
    | cons y ys =>
      by_cases hxy : x = y
      · subst hxy
        simpa [strcmp_chars] using ih ys
      · have hyx : ¬ y = x := fun h => hxy h.symm
        have hne : x.toNat ≠ y.toNat := fun h => hxy (char_toNat_inj h)
        by_cases hlt : x.toNat < y.toNat
        · have hgt : ¬ y.toNat < x.toNat := by omega
          simp [strcmp_chars, hxy, hyx, hlt, hgt]
        · have hgt : y.toNat < x.toNat := by omega
          simp [strcmp_chars, hxy, hyx, hlt, hgt]

theorem strcmp_chars_trans (a b c : List Char) (h1 : strcmp_chars a b ≤ 0)
    (h2 : strcmp_chars b c ≤ 0) : strcmp_chars a c ≤ 0 := by
  induction a generalizing b c with
  | nil => cases c <;> simp [strcmp_chars]
  | cons x xs ih =>
    cases b with
    | nil => simp [strcmp_chars] at h1
    | cons y ys =>
      cases c with
      | nil => simp [strcmp_chars] at h2
      | cons z zs =>
        by_cases hxy : x = y
        · subst hxy
          by_cases hxz : x = z
          · subst hxz
            simp only [strcmp_chars, if_true] at h1 h2 ⊢
            exact ih ys zs h1 h2
          · simp only [strcmp_chars, if_true, hxz, if_false] at h1 h2 ⊢
            exact h2
        · by_cases hyz : y = z
          · subst hyz
            simp only [strcmp_chars, if_true, hxy, if_false] at h1 h2 ⊢
            exact h1
          · have hlt1 : x.toNat < y.toNat := by
              by_contra hh
              simp [strcmp_chars, hxy, hh] at h1
            have hlt2 : y.toNat < z.toNat := by
              by_contra hh
              simp [strcmp_chars, hyz, hh] at h2
            have hxz : x ≠ z := by
              intro hh; subst hh; omega
            have hlt3 : x.toNat < z.toNat := by omega
            simp [strcmp_chars, hxz, hlt3]

theorem unittest_strcmp_eq_zero (a b : Option String) : unittest_strcmp a b = 0 ↔ a = b := by
  cases a with
  | none => cases b <;> simp [unittest_strcmp]
  | some x =>
    cases b with
    | none => simp [unittest_strcmp]
    | some y => exact unittest_strcmp_some_eq_zero (some x) y

theorem unittest_strcmp_swap (a b : Option String) :
    unittest_strcmp b a = - unittest_strcmp a b := by
  cases a with
  | none => cases b <;> simp [unittest_strcmp]
  | some x =>
    cases b with
    | none => simp [unittest_strcmp]
    | some y => simp [unittest_strcmp, strcmp, strcmp_chars_swap x.data y.data]

theorem unittest_strcmp_trans (a b c : Option String) (h1 : unittest_strcmp a b ≤ 0)
    (h2 : unittest_strcmp b c ≤ 0) : unittest_strcmp a c ≤ 0 := by
  cases a with
  | none => cases c <;> simp [unittest_strcmp]
  | some x =>
    cases b with
    | none => simp [unittest_strcmp] at h1
    | some y =>
      cases c with
      | none => simp [unittest_strcmp] at h2
      | some z =>
        simp only [unittest_strcmp, strcmp] at h1 h2 ⊢
        exact strcmp_chars_trans _ _ _ h1 h2

/-! ## Sorted test sequences -/

theorem total_test_count_eq_length (sorted_test : List unittest_s)
    (h : ∀ t ∈ sorted_test, t.file ≠ none) :
    unittest_get_total_test_count sorted_test = sorted_test.length := by
  induction sorted_test with
  | nil => rfl
  | cons t ts ih =>
    have ht : t.file ≠ none := h t (List.mem_cons_self _ _)
    simp only [unittest_get_total_test_count, if_neg ht, List.length_cons]
    rw [ih (fun t2 ht2 => h t2 (List.mem_cons_of_mem _ ht2))]

theorem compare_file_le (a b : unittest_s) (h : unittest_compare a b ≤ 0) :
    unittest_strcmp a.file b.file ≤ 0 := by
  unfold unittest_compare at h
  by_cases h1 : unittest_strcmp a.file b.file ≠ 0
  · rw [if_pos h1] at h; exact h
  · have : unittest_strcmp a.file b.file = 0 := by simpa using h1
    omega

theorem unittest_strcmp_antisymm (a b : Option String) (h1 : unittest_strcmp a b ≤ 0)
    (h2 : unittest_strcmp b a ≤ 0) : a = b := by
  rw [unittest_strcmp_swap a b] at h2
  exact (unittest_strcmp_eq_zero a b).1 (by omega)

theorem sorted_files_contiguous (sorted_test : List unittest_s)
    (hs : sorted_test.Pairwise (fun a b => unittest_compare a b ≤ 0)) (i j k : Nat)
    (hij : i ≤ j) (hjk : j ≤ k) (hk : k < sorted_test.length)
    (h : (sorted_test.getD i unittest_s.zero).file = (sorted_test.getD k unittest_s.zero).file) :
    (sorted_test.getD j unittest_s.zero).file = (sorted_test.getD i unittest_s.zero).file := by
  rw [List.pairwise_iff_getElem] at hs
  rcases Nat.eq_or_lt_of_le hij with h1 | h1
  · rw [h1]
  · rcases Nat.eq_or_lt_of_le hjk with h2 | h2
    · rw [h2, h]
    · have hi : i < sorted_test.length := by omega
      have hj : j < sorted_test.length := by omega
      rw [List.getD_eq_getElem _ _ hi, List.getD_eq_getElem _ _ hk] at h
      rw [List.getD_eq_getElem _ _ hi, List.getD_eq_getElem _ _ hj]
      have h3 := compare_file_le _ _ (hs i j hi hj h1)
      have h4 := compare_file_le _ _ (hs j k hj hk h2)
      rw [← h] at h4
      exact (unittest_strcmp_antisymm _ _ h3 h4).symm

theorem match_ne_zero_iff (a b : unittest_s) :
    unittest_match a.file a.unique_id b.file b.unique_id ≠ 0 ↔
      ¬ (a.file = b.file ∧ a.unique_id = b.unique_id) := by
  unfold unittest_match
  by_cases h : a.file = b.file ∧ a.unique_id = b.unique_id
  · have h2 : unittest_strcmp a.file b.file = 0 ∧ a.unique_id = b.unique_id :=
      ⟨(unittest_strcmp_eq_zero _ _).2 h.1, h.2⟩
    rw [if_pos h2]
    simp [h]
  · have h2 : ¬ (unittest_strcmp a.file b.file = 0 ∧ a.unique_id = b.unique_id) :=
      fun hh => h ⟨(unittest_strcmp_eq_zero _ _).1 hh.1, hh.2⟩
    rw [if_neg h2]
    simp [h]

theorem file_index_bounds (sorted_test : List unittest_s)
    (hfile : ∀ t ∈ sorted_test, t.file ≠ none) (hne : sorted_test ≠ [])
    (huid : ∀ a ∈ sorted_test, ∀ b ∈ sorted_test, a.file = b.file → a.unique_id = b.unique_id) :
    ∃ body : List Nat,
      unittest_build_file_index sorted_test = body.map Int.ofNat ++ [-1] ∧
      ∀ p, p ∈ body ↔ file_range_bound sorted_test p := by
  obtain ⟨body, h1, h2, h3, _, h5, h6, _⟩ := build_file_index_shape sorted_test
  rw [total_test_count_eq_length sorted_test hfile] at h3 h5 h6
  have hpos : 0 < sorted_test.length := List.length_pos.2 hne
  refine ⟨body, h1, ?_⟩
  intro p
  have hmid : 0 < p → p < sorted_test.length →
      (p ∈ body ↔ (sorted_test.getD (p - 1) unittest_s.zero).file ≠
        (sorted_test.getD p unittest_s.zero).file) := by
    intro hp0 hpn
    rw [h6 p hp0 hpn, match_ne_zero_iff]
    have ha : sorted_test.getD (p - 1) unittest_s.zero ∈ sorted_test := by
      rw [List.getD_eq_getElem _ _ (by omega : p - 1 < sorted_test.length)]
      exact List.getElem_mem _
    have hb : sorted_test.getD p unittest_s.zero ∈ sorted_test := by
      rw [List.getD_eq_getElem _ _ hpn]
      exact List.getElem_mem _
    constructor
    · intro h hfe
      exact h ⟨hfe, huid _ ha _ hb hfe⟩
    · intro h hfe
      exact h hfe.1
  constructor
  · intro hp
    have hle := h5 p hp
    refine ⟨hpos, hle, ?_⟩
    by_cases hp0 : p = 0
    · exact Or.inl hp0
    · by_cases hpn : p = sorted_test.length
      · exact Or.inr (Or.inl hpn)
      · exact Or.inr (Or.inr ((hmid (by omega) (by omega)).1 hp))
  · rintro ⟨_, hle, hcase⟩
    by_cases hp0 : p = 0
    · rw [hp0]; exact List.mem_of_mem_head? (by rw [h2]; rfl)
    · by_cases hpn : p = sorted_test.length
      · rw [hpn]; exact List.mem_of_getLast?_eq_some h3
      · rcases hcase with h | h | h
        · exact absurd h hp0
        · exact absurd h hpn
        · exact (hmid (by omega) (by omega)).2 h

theorem unittest_compare_lines (a b : unittest_s) (hf : a.file = b.file) (hn : a.name = b.name)
    (ha : a.line < 2147483648) (hb : b.line < 2147483648) :
    unittest_compare a b = (a.line : Int) - (b.line : Int) := by
  unfold unittest_compare
  have h1 : unittest_strcmp a.file b.file = 0 := (unittest_strcmp_eq_zero _ _).2 hf
  have h2 : unittest_strcmp a.name b.name = 0 := (unittest_strcmp_eq_zero _ _).2 hn
  simp only [h1, h2, ne_eq, not_true_eq_false, if_false]
  unfold int32
  omega

/-- When both lines are below `2^31`, as every `__LINE__` is, the sign of
`unittest_compare` is that of the lexicographic comparison of
`(file, name, line)`. -/
theorem unittest_compare_sign (a b : unittest_s)
    (ha : a.line < 2147483648) (hb : b.line < 2147483648) :
    (unittest_compare a b < 0 ↔
      unittest_strcmp a.file b.file < 0 ∨
        (a.file = b.file ∧ (unittest_strcmp a.name b.name < 0 ∨
          (a.name = b.name ∧ a.line < b.line)))) ∧
    (unittest_compare a b = 0 ↔ a.file = b.file ∧ a.name = b.name ∧ a.line = b.line) := by
  by_cases hf : a.file = b.file
  · by_cases hn : a.name = b.name
    · rw [unittest_compare_lines a b hf hn ha hb]
      have h1 : unittest_strcmp a.file b.file = 0 := (unittest_strcmp_eq_zero _ _).2 hf
      have h2 : unittest_strcmp a.name b.name = 0 := (unittest_strcmp_eq_zero _ _).2 hn
      rw [h1, h2]
      simp only [hf, hn, true_and, lt_irrefl, false_or]
      constructor
      · constructor <;> intro h <;> omega
      · constructor <;> intro h <;> omega
    · have h1 : unittest_strcmp a.file b.file = 0 := (unittest_strcmp_eq_zero _ _).2 hf
      have h2 : unittest_strcmp a.name b.name ≠ 0 := fun h => hn ((unittest_strcmp_eq_zero _ _).1 h)
      have h3 : unittest_compare a b = unittest_strcmp a.name b.name := by
        unfold unittest_compare
        rw [if_neg (by simp [h1]), if_pos h2]
      rw [h3, h1]
      refine ⟨⟨fun h => Or.inr ⟨hf, Or.inl h⟩, ?_⟩, ⟨fun h => absurd h h2, fun h => absurd h.2.1 hn⟩⟩
      rintro (h | ⟨_, h | ⟨h, _⟩⟩)
      · exact absurd h (lt_irrefl _)
      · exact h
      · exact absurd h hn
  · have h1 : unittest_strcmp a.file b.file ≠ 0 := fun h => hf ((unittest_strcmp_eq_zero _ _).1 h)
    have h3 : unittest_compare a b = unittest_strcmp a.file b.file := by
      unfold unittest_compare
      rw [if_pos h1]
    rw [h3]
    refine ⟨⟨fun h => Or.inl h, ?_⟩, ⟨fun h => absurd h h1, fun h => absurd h.1 hf⟩⟩
    rintro (h | ⟨h, _⟩)
    · exact h
    · exact absurd h hf

/-! ## The execution loop -/

theorem run_tests_trace
    (body : unittest_s → unittest_config_s → unittest_result_s → unittest_result_s)
    (c : unittest_config_s) (gctx : Option Nat) (ts : List unittest_s) :
    ∀ (tr : List Event) (r : unittest_result_s),
      (run_tests body c gctx ts tr r).1 = tr ++ scoped_tests_calls c gctx tr.length ts ∧
      (run_tests body c gctx ts tr r).2 = ts.foldl (fun r t => body t c r) r := by
  induction ts with
  | nil => intro tr r; simp [run_tests, scoped_tests_calls]
  | cons t ts ih =>
    intro tr r
    by_cases hb : t.init ≠ none ∧ t.clean ≠ none
    · simp only [run_tests, if_pos hb, scoped_tests_calls, scoped_test_calls, List.foldl_cons]
      obtain ⟨h1, h2⟩ := ih (tr ++ [Event.test_init t, Event.test_fn t c (some tr.length) gctx,
        Event.test_clean t (some tr.length)]) (body t c r)
      rw [h1, h2]
      simp
    · simp only [run_tests, if_neg hb, scoped_tests_calls, scoped_test_calls, List.foldl_cons]
      obtain ⟨h1, h2⟩ := ih (tr ++ [Event.test_fn t c none gctx]) (body t c r)
      rw [h1, h2]
      simp

/-! ## Discovery -/

theorem hex_digits_length (p : List Char) (v : Nat) : (hex_digits p v).2.length ≤ p.length := by
  induction p generalizing v with
  | nil => simp [hex_digits]
  | cons c cs ih =>
    unfold hex_digits
    split
    · rename_i d _
      have := ih (16 * v + d)
      simp only [List.length_cons]
      omega
    · simp

theorem strtoll_sign_length (p : List Char) : (strtoll_sign p).length ≤ p.length := by
  unfold strtoll_sign
  split
  · simp
  · exact Nat.le_refl _

theorem strtoll_0x_length (p : List Char) : (strtoll_0x p).length ≤ p.length := by
  unfold strtoll_0x
  split
  · split
    · simp only [List.length_cons]; omega
    · exact Nat.le_refl _
  · exact Nat.le_refl _

theorem strtoll16_length (p : List Char) : (strtoll16 p).2.length ≤ p.length := by
  have h1 : (p.dropWhile isspace).length ≤ p.length :=
    (List.dropWhile_suffix isspace).length_le
  have h2 := strtoll_sign_length (p.dropWhile isspace)
  have h3 := strtoll_0x_length (strtoll_sign (p.dropWhile isspace))
  unfold strtoll16
  split
  · exact Nat.le_refl _
  · rename_i c r hp3
    split
    · have h4 := hex_digits_length (c :: r) 0
      rw [hp3] at h3
      simp only
      omega
    · exact Nat.le_refl _

theorem copy_name_length (k : Nat) (p : List Char) (nm p2 : List Char)
    (h : copy_name k p = some (nm, p2)) : p2.length ≤ p.length := by
  induction k generalizing p nm p2 with
  | zero =>
    simp only [copy_name, Option.some.injEq, Prod.mk.injEq] at h
    rw [← h.2]
  | succ k ih =>
    cases p with
    | nil => simp [copy_name] at h
    | cons c cs =>
      simp only [copy_name] at h
      split at h
      · simp only [Option.some.injEq, Prod.mk.injEq] at h
        rw [← h.2]
      · split at h
        · simp at h
        · rename_i nm2 p3 hc
          simp only [Option.some.injEq, Prod.mk.injEq] at h
          have := ih cs nm2 p3 hc
          rw [← h.2, List.length_cons]
          omega

theorem parse_record_length (p : List Char) (r : unittest_nm_result_s) (p2 : List Char)
    (h : parse_record p = some (r, p2)) : p2.length < p.length := by
  unfold parse_record at h
  simp only at h
  split at h
  · simp at h
  · rename_i ty q hq
    split at h
    · simp at h
    · rename_i nm p5 hc
      simp only [Option.some.injEq, Prod.mk.injEq] at h
      have h1 : (if isspace (p.headD (Char.ofNat 0)) = true then p else (strtoll16 p).2).length ≤
          p.length := by
        split
        · exact Nat.le_refl _
        · exact strtoll16_length p
      have h2 := (List.dropWhile_suffix (l := if isspace (p.headD (Char.ofNat 0)) = true then p
        else (strtoll16 p).2) isspace).length_le
      rw [hq, List.length_cons] at h2
      have h3 := (List.dropWhile_suffix (l := q) isspace).length_le
      have h4 : (if (q.dropWhile isspace).head? = some '_' then (q.dropWhile isspace).tail
          else q.dropWhile isspace).length ≤ (q.dropWhile isspace).length := by
        split
        · simp
        · exact Nat.le_refl _
      have h5 := copy_name_length _ _ _ _ hc
      have h6 := (List.dropWhile_suffix (l := p5) (fun c => c = '\r' || c = '\n')).length_le
      rw [← h.2]
      omega

/-- One iteration more than the length of the string is enough for the loop of
`unittest_parse_nm_output`: more iterations allowed give the same result. -/
theorem parse_loop_fuel (fuel : Nat) :
    ∀ p : List Char, p.length < fuel → parse_loop (fuel + 1) p = parse_loop fuel p := by
  induction fuel with
  | zero => intro p h; omega
  | succ fuel ih =>
    intro p h
    rw [parse_loop, parse_loop]
    split
    · rfl
    · cases hr : parse_record p with
      | none => rfl
      | some res =>
        obtain ⟨r, p2⟩ := res
        have := parse_record_length p r p2 hr
        simp only
        rw [ih p2 (by omega)]

theorem anchor_offset_no_main (main_addr : Nat) (res : List unittest_nm_result_s)
    (offset : Nat) (h : ∀ r ∈ res, r.name ≠ "main") :
    anchor_offset main_addr res offset = none ∨
      anchor_offset main_addr res offset = some offset := by
  induction res with
  | nil => left; rfl
  | cons r rs ih =>
    unfold anchor_offset
    split
    · right; rfl
    · have hr : ¬ unittest_strcmp (some "main") (some r.name) = 0 := by
        rw [unittest_strcmp_some_eq_zero]
        intro hh
        exact h r (List.mem_cons_self _ _) (by simpa using hh.symm)
      rw [if_neg hr]
      exact ih (fun r2 hr2 => h r2 (List.mem_cons_of_mem _ hr2))

/-- When no record is named "main", `unittest_get_unittest` returns `NULL`
(unless the records lack a terminator). -/
theorem get_unittest_no_main (main_addr : Nat) (call : Nat → unittest_s)
    (res : List unittest_nm_result_s) (h : ∀ r ∈ res, r.name ≠ "main") :
    unittest_get_unittest main_addr call res = none ∨
      unittest_get_unittest main_addr call res = some none := by
  unfold unittest_get_unittest
  rcases anchor_offset_no_main main_addr res 18446744073709551615 h with h1 | h1
  · left; rw [h1]
  · right; rw [h1]; simp

/-! ## Groups without edge, and marks below 128 -/

/-- When every row of the dependency graph of a group is empty,
`toposort_by_tag_term` returns 0 and leaves the tests in their order. -/
theorem by_tag_of_rows_empty (sorted_test : List unittest_s)
    (hempty : ∀ (x : Nat) (row : List Int),
      (build_dag_term (sorted_test.map (fun t => t.name))
        (sorted_test.map (fun t => t.depends_on)))[x]? = some row → row = []) :
    toposort_by_tag_term sorted_test = (0, sorted_test) := by
  have hspec := toposort_run_spec (sorted_test.map (fun t => t.name))
    (sorted_test.map (fun t => t.depends_on))
  have hrange := Sched_range hspec.1 hempty
  have hok : (toposort_run_term (sorted_test.map (fun t => t.name))
      (sorted_test.map (fun t => t.depends_on))).1 = true := by
    by_contra hne
    have hf : (toposort_run_term (sorted_test.map (fun t => t.name))
        (sorted_test.map (fun t => t.depends_on))).1 = false := by simpa using hne
    obtain ⟨hlt, hstuck⟩ := hspec.2.2 hf
    set ord := (toposort_run_term (sorted_test.map (fun t => t.name))
      (sorted_test.map (fun t => t.depends_on))).2 with hord
    have hnot : ord.length ∉ ord := by
      intro hin
      rw [hrange] at hin
      simp at hin
    have hlen : ord.length < (build_dag_term (sorted_test.map (fun t => t.name))
        (sorted_test.map (fun t => t.depends_on))).length := by
      rw [length_build_dag]
      simpa using hlt
    have hrow := List.getElem?_eq_getElem hlen
    have := hstuck ord.length _ hnot hrow
    rw [hempty _ _ hrow] at this
    exact this (by simp [live, int8_zero])
  have hlen := hspec.2.1 hok
  have hord : tag_order_term sorted_test = some (List.range sorted_test.length) := by
    simp only [tag_order_term, toposort_order_term, hok, if_true]
    rw [hrange, hlen]
    simp
  rw [(by_tag_of_order sorted_test _ hord).2.2, map_getD_range]

theorem int8_of_lt_128 {c : Nat} (h : c < 128) : int8 (c : Int) = (c : Int) := by
  unfold int8; omega

/-- When every row of the dependency graph has fewer than 128 entries, the
"build mark" loop stores the size of each row. -/
theorem build_mark_exact (dag : List (List Int)) (h : ∀ row ∈ dag, row.length < 128) :
    build_mark dag = dag.map (fun row => (row.length : Int)) := by
  unfold build_mark
  apply List.map_congr_left
  intro row hrow
  exact int8_of_lt_128 (h row hrow)

/-- During the "sort" loop the mark of a node not yet pushed whose row has
fewer than 128 entries is the number of its entries that are not ids of pushed
nodes, and it is zero exactly when there is none. -/
theorem mark_exact_of_small {dag0 dag : List (List Int)} {mark : List Int} {res : List Nat}
    (h : Inv dag0 dag mark res) (x : Nat) (row : List Int) (hx : x ∉ res)
    (hrow : dag0[x]? = some row) (hs : row.length < 128) :
    mark[x]? = some (live res row : Int) ∧
      (mark[x]? = some 0 ↔ live res row = 0) := by
  have h1 := (h.todo x row hx hrow).2
  have h2 : live res row < 128 := lt_of_le_of_lt (live_le_length res row) hs
  rw [int8_of_lt_128 h2] at h1
  refine ⟨h1, ?_⟩
  rw [h1]
  simp

/-! ## Groups whose `depends_on` arrays hold a `NULL` -/

/-- When every `depends_on` array of the group holds a `NULL` and no
`depends_on` entry of a test equals the name of another test of the group,
`unittest_toposort_by_tag` returns 0 and leaves the test array in its input
order. -/
theorem toposort_by_tag_unresolved_ignored (sorted_test : List unittest_s)
    (hterm : ∀ t ∈ sorted_test, t.depends_on.length < 16)
    (h : ∀ (i j : Nat) (ti tj : unittest_s), sorted_test[i]? = some ti →
      sorted_test[j]? = some tj → i ≠ j → ∀ d ∈ ti.depends_on, tj.name ≠ some d) :
    unittest_toposort_by_tag sorted_test = some (0, sorted_test) := by
  rw [toposort_by_tag_eq sorted_test hterm]
  congr 1
  apply by_tag_of_rows_empty
  intro x row hrow
  obtain ⟨tx, htx, rfl⟩ := tag_dag_row sorted_test x row hrow
  rw [List.eq_nil_iff_forall_not_mem]
  intro e he
  obtain ⟨d, hd, k, _, hkx, hk⟩ := (mem_dag_row _ _ _ _).1 he
  simp only [List.getElem?_map, Option.map_eq_some'] at hk
  obtain ⟨tk, htk, hname⟩ := hk
  exact h x k tx tk htx htk (fun hh => hkx hh.symm) d hd hname

/-- The hypotheses of `toposort_by_tag_unresolved_ignored` hold of
`unresolved_group`, whose first test depends on the name "nonexistent". -/
theorem toposort_by_tag_unresolved_ignored_example :
    unittest_toposort_by_tag unresolved_group = some (0, unresolved_group) :=
  toposort_by_tag_unresolved_ignored unresolved_group (by decide) (by
    intro i j ti tj hi hj hij d hd
    rcases i with _ | _ | i <;> rcases j with _ | _ | j <;>
      simp [unresolved_group, mk_test] at hi hj hij <;>
      first
        | (subst hi; subst hj; simp at hd; subst hd; decide)
        | (subst hi; subst hj; simp at hd))

/-! ## The claims -/

set_option maxRecDepth 100000

/-- C1 (evaluation at the failing input). On `wrap_group`, where test 0 lists
"b" eight times and tests 1 to 32 are named "b", `unittest_toposort_by_tag`
returns 0 and leaves the array as it was: test 0 stays at index 0, before the
tests 1 to 32 it depends on. -/
theorem toposort_by_tag_wrap_group_order :
    unittest_toposort_by_tag wrap_group = some (0, wrap_group) ∧
    tag_order wrap_group = some (List.range 33) ∧
    dep_edge wrap_group 1 0 = true := by
  decide

/-- C2 (evaluation at the failing input). On the 33 one-test groups of
`wrap_tests` with the configs `wrap_configs`, where group 0 lists "y" eight
times and groups 1 to 32 are named "y", `unittest_toposort_by_group` returns 0
and leaves both arrays as they were: the test and the config of group 0 stay
before those of the groups it depends on. -/
theorem toposort_by_group_wrap_order :
    unittest_build_file_index wrap_tests = (List.range 34).map Int.ofNat ++ [-1] ∧
    unittest_get_total_file_count wrap_tests = 33 ∧
    unittest_toposort_by_group wrap_tests 33 wrap_configs
      (unittest_build_file_index wrap_tests) 33 = some (0, wrap_tests, wrap_configs) ∧
    (wrap_configs.map (fun c => c.name)).getD 1 none = some "y" ∧
    "y" ∈ (wrap_configs.map (fun c => c.depends_on)).getD 0 [] := by
  decide

/-- C3 (evaluation at the failing input). With two tests in "a.c" (group "foo",
depending on "bar") and one test in "b.c" (group "bar"), `unittest_main` puts
the test of "b.c" first and keeps using the file index `[0, 2, 3]` computed
before the inter-group sort: test "x" of "a.c" is run with the config of
"b.c", and the result reported for "bar" counts two tests. -/
theorem main_stale_file_index :
    unittest_main one_succ stale_tests stale_configs =
      some { status := 0,
             trace := [Event.test_fn (mk_test "b.c" "x" 1 []) (mk_config "b.c" "bar" []) none none,
                       Event.test_fn (mk_test "a.c" "x" 1 []) (mk_config "b.c" "bar" []) none none,
                       Event.test_fn (mk_test "a.c" "y" 2 []) (mk_config "a.c" "foo" ["bar"])
                         none none],
             result := [{ succ := 2, fail := 0 }, { succ := 1, fail := 0 }],
             config := [mk_config "b.c" "bar" [], mk_config "a.c" "foo" ["bar"]] } := by
  decide

/-- C4 (evaluation at the failing input). On `cyc_group`, where test 0 ("a")
depends on test 1 ("b") and test 1 depends on test 0, `unittest_toposort_by_tag`
returns 0 and pushes test 0 first. -/
theorem toposort_by_tag_cycle_accepted :
    dep_edge cyc_group 1 0 = true ∧ dep_edge cyc_group 0 1 = true ∧
    (unittest_toposort_by_tag cyc_group).map (fun r => r.1) = some 0 ∧
    tag_order cyc_group = some (List.range 33) := by
  decide

/-- C5 (evaluation at the failing input). With the 33 one-test groups of
`wrap_tests` and the configs `cyc_configs`, where group 0 ("x") depends on
"y" and group 1 ("y") depends on "x", `unittest_toposort_by_group` returns 0
and `unittest_main` returns 0 after calling the 33 entry points. -/
theorem main_group_cycle_runs :
    unittest_compensate_config wrap_tests cyc_configs = some cyc_configs ∧
    (unittest_toposort_by_group wrap_tests 33 cyc_configs
      (unittest_build_file_index wrap_tests) 33).map (fun r => r.1) = some 0 ∧
    (unittest_main one_succ wrap_tests cyc_configs).map (fun r => (r.status, r.trace.length)) =
      some (0, 33) ∧
    (cyc_configs.map (fun c => c.name)).take 2 = [some "x", some "y"] ∧
    (cyc_configs.map (fun c => c.depends_on)).take 2 = [List.replicate 8 "y", ["x"]] := by
  decide

/-- C6 (evaluation at the failing input). In `overrun_group` test 0 fills the
16 elements of `depends_on` with "zz", a name no test of the group bears: the
loop `while(*d != NULL)` meets no `NULL` in the array and reads
`depends_on[16]`, so that `unittest_toposort_by_tag` does not return 0 with
the array in its input order, as it does when only 15 elements are filled. -/
theorem toposort_by_tag_reads_outside :
    (overrun_group.map (fun t => t.depends_on.length)) = [16, 0] ∧
    (∀ t ∈ overrun_group, ∀ u ∈ overrun_group, ∀ d ∈ t.depends_on, u.name ≠ some d) ∧
    dag_row (overrun_group.map (fun t => t.name)) 0 16 (List.replicate 16 "zz") = none ∧
    dag_row (overrun_group.map (fun t => t.name)) 0 16 (List.replicate 15 "zz") = some [] ∧
    unittest_toposort_by_tag overrun_group = none ∧
    unittest_toposort_by_tag
      [{ mk_test "a.c" "a" 1 (List.replicate 15 "zz") with init := some 1, clean := some 2 },
       mk_test "a.c" "a.c" 2 []] =
      some (0, [{ mk_test "a.c" "a" 1 (List.replicate 15 "zz") with
                    init := some 1, clean := some 2 },
                mk_test "a.c" "a.c" 2 []]) := by
  decide

/-- C7 (evaluation at the failing input). On `wrap_group` the node written at
output position 0 is node 0, whose row of the dependency graph holds 256
entries, node 1 among them, while node 1 has an empty row: node 0 is written
although none of its dependencies is among the first 0 outputs. -/
theorem toposort_first_pick_wrap_group :
    (tag_order wrap_group).map (fun ord => ord.head?) = some (some 0) ∧
    (build_dag (wrap_group.map (fun t => t.name))
      (wrap_group.map (fun t => t.depends_on))).map
        (fun dag => (dag.map (fun row => row.length)).take 2) = some [256, 0] ∧
    (build_dag (wrap_group.map (fun t => t.name))
      (wrap_group.map (fun t => t.depends_on))).map
        (fun dag => decide ((1 : Int) ∈ dag.getD 0 [])) = some true ∧
    (build_dag (wrap_group.map (fun t => t.name))
      (wrap_group.map (fun t => t.depends_on))).map
        (fun dag => (build_mark dag).take 2) = some [0, 0] := by
  decide

theorem kahn_group_edge (j i : Nat) (h : dep_edge kahn_group j i = true) : j = 2 ∧ i = 0 := by
  rcases i with _ | _ | _ | i <;> rcases j with _ | _ | _ | j <;>
    simp [dep_edge, kahn_group, mk_test] at h ⊢

theorem kahn_group_path (j i : Nat) (h : dep_path kahn_group j i) : j = 2 ∧ i = 0 := by
  induction h with
  | single h => exact kahn_group_edge _ _ h
  | tail _ h ih =>
    have := kahn_group_edge _ _ h
    omega

/-- C8 (counterexample). In `kahn_group` test 0 ("a") depends on test 2 ("c")
and test 1 ("b") on nothing, so there is no dependency path between tests 0
and 1; the sort succeeds and writes test 1 at index 0 and test 0 at index 2,
although test 0 precedes test 1 in the input. -/
theorem toposort_by_tag_independent_reordered :
    ¬ dep_path kahn_group 0 1 ∧ ¬ dep_path kahn_group 1 0 ∧
    tag_order kahn_group = some [1, 2, 0] ∧
    unittest_toposort_by_tag kahn_group =
      some (0, [mk_test "a.c" "b" 2 [], mk_test "a.c" "c" 3 [], mk_test "a.c" "a" 1 ["c"]]) := by
  refine ⟨fun h => ?_, fun h => ?_, by decide, by decide⟩
  · have := kahn_group_path _ _ h; omega
  · have := kahn_group_path _ _ h; omega

/-- C8 (amended). Whenever every `depends_on` array of the group holds a `NULL`
(at most 15 entries) and `unittest_toposort_by_tag` succeeds, pushing the
tests in the order `ord`, and test `a` precedes test `b` in the input, and
every test whose name is a `depends_on` entry of `a` is placed before `b` in
the output, then `a` is placed before `b` in the output. -/
theorem toposort_by_tag_ready_keeps_order (sorted_test : List unittest_s) (ord : List Nat)
    (a b q : Nat) (hterm : ∀ t ∈ sorted_test, t.depends_on.length < 16)
    (hord : tag_order sorted_test = some ord) (hab : a < b)
    (hq : ord[q]? = some b)
    (hdeps : ∀ (j : Nat) (ta tj : unittest_s), j ≠ a → sorted_test[a]? = some ta →
      sorted_test[j]? = some tj → (∃ d ∈ ta.depends_on, tj.name = some d) →
      ∃ r, r < q ∧ ord[r]? = some j) :
    unittest_toposort_by_tag sorted_test =
      some (0, ord.map (fun node_id => sorted_test.getD node_id unittest_s.zero)) ∧
    ∃ p, p < q ∧ ord[p]? = some a := by
  rw [tag_order_eq sorted_test hterm] at hord
  obtain ⟨hs, _, heq⟩ := by_tag_of_order sorted_test ord hord
  refine ⟨by rw [toposort_by_tag_eq sorted_test hterm, heq], ?_⟩
  have hb := Sched_lt hs b (List.getElem?_mem hq)
  have hrow := List.getElem?_eq_getElem (Nat.lt_trans hab hb)
  obtain ⟨ta, hta, hrow2⟩ := tag_dag_row sorted_test a _ hrow
  refine Sched_ready hs q a b _ hab hq hrow ?_
  intro e he
  rw [hrow2] at he
  obtain ⟨d, hd, k, hek, hka, hk⟩ := (mem_dag_row _ _ _ _).1 he
  simp only [List.getElem?_map, Option.map_eq_some'] at hk
  obtain ⟨tk, htk, hname⟩ := hk
  obtain ⟨r, hr, hrk⟩ := hdeps k ta tk hka hta htk ⟨d, hd, hname⟩
  exact ⟨r, k, hr, hrk, hek.symm⟩

/-- C8 (witness). In `example2_group` the "second test" (index 1) precedes the
"third test" (index 2, written at position 2) and its only dependency, the
"first test", is written at position 0: the "second test" is written before
position 2. -/
theorem toposort_by_tag_ready_keeps_order_witness :
    (∀ t ∈ example2_group, t.depends_on.length < 16) ∧
    tag_order example2_group = some [0, 1, 2] ∧
    (unittest_toposort_by_tag example2_group = some (0, example2_group) ∧
      ∃ p, p < 2 ∧ [0, 1, 2][p]? = some 1) := by
  refine ⟨by decide, by decide, ?_⟩
  have h := toposort_by_tag_ready_keeps_order example2_group [0, 1, 2] 1 2 2 (by decide)
    (by decide) (by decide) (by decide) (by
      intro j ta tj hj hta htj hd
      rcases j with _ | _ | _ | j
      · exact ⟨0, by decide, by decide⟩
      · exact absurd rfl hj
      · simp [example2_group, mk_test] at hta htj
        subst hta; subst htj
        simp at hd
      · simp [example2_group] at htj)
  exact h

/-- C9 (evaluation at the failing input). For one test in "a.c" and no declared
config, `unittest_compensate_config` pushes no config although
`unittest_get_total_file_count` is 1. -/
theorem compensate_config_no_config :
    unittest_compensate_config [mk_test "a.c" "t" 1 []] [] = some [] ∧
    unittest_get_total_file_count [mk_test "a.c" "t" 1 []] = 1 := by
  decide

/-- C10 (evaluation at the failing input). For one test in "a.c", one test in
"b.c" and a declared config for "a.c" only, `unittest_compensate_config`
pushes the config of "a.c" and nothing for the group of "b.c": entry 1 of the
returned vector is zero-filled memory, whose `file` is `NULL`. -/
theorem compensate_config_trailing_group :
    unittest_build_file_index two_file_tests = [0, 1, 2, -1] ∧
    unittest_compensate_config two_file_tests [mk_config "a.c" "foo" []] =
      some [mk_config "a.c" "foo" []] ∧
    utkv_view unittest_config_s.zero [mk_config "a.c" "foo" []] 2 =
      some [mk_config "a.c" "foo" [], unittest_config_s.zero] ∧
    (two_file_tests.map (fun t => t.file)).getD 1 none = some "b.c" := by
  decide

/-- C12 (evaluation at the failing input). For one test of "a.c" and a config
declared in "b.c", a file without test, the file index is `[0, 1, -1]`; the
inner loop finds no match at group 0, none at the sentinel `sorted_test[1]`,
and goes on to `sorted_test[file_idx[2]]`, that is `sorted_test[-1]`, a read
outside the array. -/
theorem compensate_config_reads_outside :
    unittest_build_file_index [mk_test "a.c" "t" 1 []] = [0, 1, -1] ∧
    test_at [mk_test "a.c" "t" 1 []] 1 = some unittest_s.zero ∧
    test_at [mk_test "a.c" "t" 1 []] (-1) = none ∧
    compensate_inner [mk_test "a.c" "t" 1 []] (mk_config "b.c" "foo" []) [-1] 1
      [{ unittest_config_s.zero with file := some "a.c" }] = none ∧
    unittest_compensate_config [mk_test "a.c" "t" 1 []] [mk_config "b.c" "foo" []] = none := by
  decide

/-- C13 (counterexample). The two tests of the header "t.h", compiled with
`UNITTEST_UNIQUE_ID` 1 and 2, are sorted by `unittest_compare` and share their
`file`, so that they form one range whose bounds are 0 and 2; the file index
holds 0, 1 and 2. -/
theorem file_index_splits_file :
    header_tests.Pairwise (fun a b => unittest_compare a b ≤ 0) ∧
    (∀ t ∈ header_tests, t.file = some "t.h") ∧
    unittest_build_file_index header_tests = [0, 1, 2, -1] ∧
    ¬ file_range_bound header_tests 1 := by
  refine ⟨by decide, by decide, by decide, ?_⟩
  simp [file_range_bound, header_tests, mk_test_id, mk_test]

/-- C13 (amended). For every non-empty test sequence (the tests before the
sentinel, none with a `NULL` file) sorted by `unittest_compare` in which tests
sharing a `file` share their `unique_id`,
the tests sharing a `file` occupy one contiguous index range, and the
positions where these ranges start or end are exactly the entries of
`unittest_build_file_index` before its `-1`. -/
theorem file_index_delimits_files (sorted_test : List unittest_s)
    (hfile : ∀ t ∈ sorted_test, t.file ≠ none) (hne : sorted_test ≠ [])
    (hs : sorted_test.Pairwise (fun a b => unittest_compare a b ≤ 0))
    (huid : ∀ a ∈ sorted_test, ∀ b ∈ sorted_test, a.file = b.file → a.unique_id = b.unique_id) :
    (∀ i j k, i ≤ j → j ≤ k → k < sorted_test.length →
      (sorted_test.getD i unittest_s.zero).file = (sorted_test.getD k unittest_s.zero).file →
      (sorted_test.getD j unittest_s.zero).file = (sorted_test.getD i unittest_s.zero).file) ∧
    ∃ body : List Nat,
      unittest_build_file_index sorted_test = body.map Int.ofNat ++ [-1] ∧
      ∀ p, p ∈ body ↔ file_range_bound sorted_test p :=
  ⟨fun i j k hij hjk hk h => sorted_files_contiguous sorted_test hs i j k hij hjk hk h,
   file_index_bounds sorted_test hfile hne huid⟩

/-- C13 (witness). The hypotheses hold of the two tests of "a.c" followed by
the test of "b.c". -/
theorem file_index_delimits_files_witness :
    (∀ t ∈ stale_tests, t.file ≠ none) ∧ stale_tests ≠ [] ∧
    stale_tests.Pairwise (fun a b => unittest_compare a b ≤ 0) ∧
    (∀ a ∈ stale_tests, ∀ b ∈ stale_tests, a.file = b.file → a.unique_id = b.unique_id) ∧
    unittest_build_file_index stale_tests = [0, 2, 3, -1] ∧
    ((∀ i j k, i ≤ j → j ≤ k → k < stale_tests.length →
      (stale_tests.getD i unittest_s.zero).file = (stale_tests.getD k unittest_s.zero).file →
      (stale_tests.getD j unittest_s.zero).file = (stale_tests.getD i unittest_s.zero).file) ∧
    ∃ body : List Nat,
      unittest_build_file_index stale_tests = body.map Int.ofNat ++ [-1] ∧
      ∀ p, p ∈ body ↔ file_range_bound stale_tests p) :=
  ⟨by decide, by decide, by decide, by decide, by decide,
   file_index_delimits_files stale_tests (by decide) (by decide) (by decide) (by decide)⟩

/-- C14. For every test sequence, `n` being its length up to the sentinel,
`unittest_build_file_index` returns, before its `-1`, a strictly increasing
sequence of positions that starts with 0, ends with `n`, holds in between
exactly the positions `p` with `0 < p < n` where the `(file, unique_id)` of
test `p` differs from that of test `p - 1`, and has
`unittest_get_total_file_count + 1` entries; for `n = 0` it is the single
entry 0 and the file count is 0. -/
theorem file_index_sequence (sorted_test : List unittest_s) :
    ∃ body : List Nat,
      unittest_build_file_index sorted_test = body.map Int.ofNat ++ [-1] ∧
      body.head? = some 0 ∧
      body.getLast? = some (unittest_get_total_test_count sorted_test) ∧
      body.Pairwise (fun p q => p < q) ∧
      (∀ p ∈ body, p ≤ unittest_get_total_test_count sorted_test) ∧
      (∀ p, 0 < p → p < unittest_get_total_test_count sorted_test →
        (p ∈ body ↔
          ((sorted_test.getD (p - 1) unittest_s.zero).file,
            (sorted_test.getD (p - 1) unittest_s.zero).unique_id) ≠
          ((sorted_test.getD p unittest_s.zero).file,
            (sorted_test.getD p unittest_s.zero).unique_id))) ∧
      body.length = unittest_get_total_file_count sorted_test + 1 ∧
      (unittest_get_total_test_count sorted_test = 0 →
        body = [0] ∧ unittest_get_total_file_count sorted_test = 0) := by
  obtain ⟨body, h1, h2, h3, h4, h5, h6, h7⟩ := build_file_index_shape sorted_test
  refine ⟨body, h1, h2, h3, h4, h5, ?_, h7, ?_⟩
  · intro p hp hpn
    rw [h6 p hp hpn, match_ne_zero_iff]
    simp [Prod.ext_iff]
  · intro hn
    have hb : body = [0] := by
      cases body with
      | nil => simp at h2
      | cons b bs =>
        have hb0 : b = 0 := by simpa using h2
        cases bs with
        | nil => rw [hb0]
        | cons b2 bs2 =>
          have hlt : b < b2 := (List.pairwise_cons.1 h4).1 b2 (List.mem_cons_self _ _)
          have hle := h5 b2 (List.mem_cons_of_mem _ (List.mem_cons_self _ _))
          omega
    refine ⟨hb, ?_⟩
    rw [hb] at h7
    simpa using h7.symm

/-- C15 (counterexample). An absent string compares as less than the present
string "a", and "a" as greater than an absent string. -/
theorem unittest_strcmp_null_first :
    unittest_strcmp none (some "a") = -1 ∧ unittest_strcmp (some "a") none = 1 := by
  decide

/-- C15 (amended). `unittest_strcmp` is a total order on optional strings in
which an absent string sorts as less than every present string
(`unittest_strcmp(NULL, s) < 0` and `unittest_strcmp(s, NULL) > 0`), absent
compared with absent gives 0, and two present strings compare as `strcmp`
does. -/
theorem unittest_strcmp_order :
    (∀ s : String, unittest_strcmp none (some s) < 0 ∧ unittest_strcmp (some s) none > 0) ∧
    unittest_strcmp none none = 0 ∧
    (∀ a b : String, unittest_strcmp (some a) (some b) = strcmp a b) ∧
    (∀ a b : Option String, unittest_strcmp a b = 0 ↔ a = b) ∧
    (∀ a b : Option String, unittest_strcmp a b < 0 ↔ unittest_strcmp b a > 0) ∧
    (∀ a b c : Option String, unittest_strcmp a b ≤ 0 → unittest_strcmp b c ≤ 0 →
      unittest_strcmp a c ≤ 0) := by
  refine ⟨fun s => by simp [unittest_strcmp], rfl, fun a b => rfl, unittest_strcmp_eq_zero,
    ?_, unittest_strcmp_trans⟩
  intro a b
  rw [unittest_strcmp_swap a b]
  omega

/-- C16 (evaluation at the failing input). For two tests with the same file
and name, `unittest_compare` returns 0 when the lines are 4294967296 and 0,
and a negative value when they are 2147483648 and 0. -/
theorem unittest_compare_line_truncated :
    unittest_compare (mk_test "a.c" "t" 4294967296 []) (mk_test "a.c" "t" 0 []) = 0 ∧
    unittest_compare (mk_test "a.c" "t" 2147483648 []) (mk_test "a.c" "t" 0 []) = -2147483648 := by
  decide

/-- C17 (evaluation at the failing input). On the 53 tests of `dup_tests`,
with no declared config, both ordering passes succeed and `unittest_main`
returns 0; the entry points called are those of tests 0 to 51 and then that of
test 0 again: test 0 ("a") is run twice and test 52 ("d") is not run. -/
theorem main_runs_test_twice :
    (unittest_toposort_by_tag dup_tests).map (fun r => r.1) = some 0 ∧
    tag_order dup_tests = some (List.range 52 ++ [0]) ∧
    (unittest_main one_succ dup_tests []).map (fun r => (r.status, entry_calls r.trace)) =
      some (0, dup_tests.take 52 ++ dup_tests.take 1) ∧
    dup_tests.getD 52 unittest_s.zero ∉ dup_tests.take 52 ++ dup_tests.take 1 := by
  decide

/-- C18. In one iteration of the execution loop of `unittest_main`, for the
group with config `c` and tests `tests`, the calls added to the trace are
those of `scoped_group_calls`: the setup of the group is called exactly when
the config declares both setup and teardown, the tests then receive the
context it returned and the teardown is called with that context after the
last test; each test's setup is called exactly when the test declares both
setup and teardown, its entry point then receives the context the setup
returned and its teardown is called with that context right after the entry
point; in the other cases neither is called and the context is `NULL`. The
reported result is that of the entry points run in turn from `{0, 0}`. -/
theorem run_group_scoping
    (body : unittest_s → unittest_config_s → unittest_result_s → unittest_result_s)
    (c : unittest_config_s) (tests : List unittest_s) (tr : List Event) :
    (run_group body c tests tr).1 = tr ++ scoped_group_calls c tr.length tests ∧
    (run_group body c tests tr).2 =
      tests.foldl (fun r t => body t c r) { succ := 0, fail := 0 } := by
  by_cases hb : c.init ≠ none ∧ c.clean ≠ none
  · simp only [run_group, if_pos hb, scoped_group_calls]
    obtain ⟨h1, h2⟩ := run_tests_trace body c (some tr.length) tests (tr ++ [Event.group_init c])
      { succ := 0, fail := 0 }
    rw [h1, h2]
    simp
  · simp only [run_group, if_neg hb, scoped_group_calls]
    exact run_tests_trace body c none tests tr { succ := 0, fail := 0 }

/-- C19 (evaluation at the failing input). For the two lines of
`long_name_dump`, the first with a name of 256 characters,
`unittest_parse_nm_output` returns three records and the terminator: the name
cut after 254 characters, then a record of address `NULL`, kind "z" and name
"z" made of the rest of the name, then the record of `main`. -/
theorem parse_nm_output_long_name :
    unittest_parse_nm_output long_name_dump =
      some [{ ptr := 4096, type := 'T', name := String.mk (List.replicate 254 'z') },
            { ptr := 0, type := 'z', name := "z" },
            { ptr := 8192, type := 'T', name := "main" },
            unittest_nm_result_s.zero] := by
  decide

/-- C20 (evaluation at the failing input). With `main` at the runtime address
4096 and recorded at address 4097, the offset is `2^64 - 1`, the value that
stands for "not found": `unittest_get_unittest` and
`unittest_get_unittest_config` return `NULL` although a record is named
"main". -/
theorem get_unittest_anchor_lost :
    anchor_offset 4096 anchor_records 18446744073709551615 = some 18446744073709551615 ∧
    (∀ call, unittest_get_unittest 4096 call anchor_records = some none) ∧
    (∀ call, unittest_get_unittest_config 4096 call anchor_records = some none) ∧
    (anchor_records.map (fun r => r.name)).head? = some "main" := by
  refine ⟨by decide, fun call => ?_, fun call => ?_, by decide⟩
  · have h : anchor_offset 4096 anchor_records 18446744073709551615 =
        some 18446744073709551615 := by decide
    simp [unittest_get_unittest, h]
  · have h : anchor_offset 4096 anchor_records 18446744073709551615 =
        some 18446744073709551615 := by decide
    simp [unittest_get_unittest_config, h]

/-- C21. Whenever `unittest_toposort_by_tag` returns -1 the test array is as it
was on entry, and whenever `unittest_toposort_by_group` returns -1 the test
array and the config array are as they were on entry. -/
theorem toposort_failure_keeps_arrays (sorted_test : List unittest_s) (test_cnt : Nat)
    (sorted_config : List unittest_config_s) (file_idx : List Int) (file_cnt : Nat)
    (test1 test2 : List unittest_s) (config2 : List unittest_config_s) :
    (unittest_toposort_by_tag sorted_test = some (-1, test1) → test1 = sorted_test) ∧
    (unittest_toposort_by_group sorted_test test_cnt sorted_config file_idx file_cnt =
        some (-1, test2, config2) →
      test2 = sorted_test ∧ config2 = sorted_config) := by
  constructor
  · intro h
    obtain ⟨_, hr⟩ := toposort_by_tag_some sorted_test _ h
    have h1 : (toposort_by_tag_term sorted_test).1 = -1 := by rw [← hr]
    have h2 : (toposort_by_tag_term sorted_test).2 = test1 := by rw [← hr]
    rw [← h2]
    unfold toposort_by_tag_term at h1 ⊢
    cases hres : tag_order_term sorted_test with
    | none => rfl
    | some res =>
      simp only [hres] at h1 ⊢
      by_cases hl : res.length ≠ sorted_test.length
      · rw [if_pos hl]
      · rw [if_neg hl] at h1
        simp at h1
  · intro h
    unfold unittest_toposort_by_group at h
    split at h
    · simp at h
    · simp only at h
      split at h
      · simp at h
      · split at h
        · simp at h
        · split at h
          · simp only [Option.some.injEq, Prod.mk.injEq, true_and] at h
            exact ⟨h.1.symm, h.2.symm⟩
          · split at h
            · simp only [Option.some.injEq, Prod.mk.injEq, true_and] at h
              exact ⟨h.1.symm, h.2.symm⟩
            · split at h
              · simp at h
              · simp at h

/-- C21 (witness). Both sorts return -1 on two nodes that depend on each
other, the tests `loop_group` for the first, the configs `loop_configs` of the
two files of `two_file_tests` for the second, and leave the arrays as they
were. -/
theorem toposort_failure_keeps_arrays_witness :
    unittest_toposort_by_tag loop_group = some (-1, loop_group) ∧
    loop_group = loop_group ∧
    unittest_toposort_by_group two_file_tests 2 loop_configs [0, 1, 2, -1] 2 =
      some (-1, two_file_tests, loop_configs) ∧
    (two_file_tests = two_file_tests ∧ loop_configs = loop_configs) :=
  ⟨by decide,
   (toposort_failure_keeps_arrays loop_group 0 [] [] 0 loop_group [] []).1 (by decide),
   by decide,
   (toposort_failure_keeps_arrays two_file_tests 2 loop_configs [0, 1, 2, -1] 2 []
     two_file_tests loop_configs).2 (by decide)⟩

/-- C22 (counterexample). Two tests that both bear the name "a" and list only
that name in `depends_on` depend on each other: `unittest_toposort_by_tag`
returns -1. When only the first of them lists the name, the function returns 0
and puts the second test first. -/
theorem toposort_by_tag_twin_names :
    (∀ t ∈ twin_group, ∀ d ∈ t.depends_on, t.name = some d) ∧
    unittest_toposort_by_tag twin_group = some (-1, twin_group) ∧
    (∀ t ∈ twin_first_group, ∀ d ∈ t.depends_on, t.name = some d) ∧
    unittest_toposort_by_tag twin_first_group =
      some (0, [mk_test "a.c" "a" 2 [], mk_test "a.c" "a" 1 ["a"]]) := by
  decide

/-- C22 (amended). For every group of tests in which every `depends_on` array
holds a `NULL` (at most 15 entries), each test lists only its own name in
`depends_on` and no test with a non-empty `depends_on` shares its name with
another test of the group, `unittest_toposort_by_tag` returns 0 and leaves the
order of the tests unchanged. -/
theorem toposort_by_tag_self_dependency (sorted_test : List unittest_s)
    (hterm : ∀ t ∈ sorted_test, t.depends_on.length < 16)
    (hself : ∀ t ∈ sorted_test, ∀ d ∈ t.depends_on, t.name = some d)
    (hdist : ∀ (i j : Nat) (ti tj : unittest_s), sorted_test[i]? = some ti →
      sorted_test[j]? = some tj → i ≠ j → ti.depends_on ≠ [] → tj.name ≠ ti.name) :
    unittest_toposort_by_tag sorted_test = some (0, sorted_test) := by
  rw [toposort_by_tag_eq sorted_test hterm]
  congr 1
  apply by_tag_of_rows_empty
  intro x row hrow
  obtain ⟨tx, htx, rfl⟩ := tag_dag_row sorted_test x row hrow
  rw [List.eq_nil_iff_forall_not_mem]
  intro e he
  obtain ⟨d, hd, k, _, hkx, hk⟩ := (mem_dag_row _ _ _ _).1 he
  simp only [List.getElem?_map, Option.map_eq_some'] at hk
  obtain ⟨tk, htk, hname⟩ := hk
  have hx : tx.name = some d := hself tx (List.getElem?_mem htx) d hd
  exact hdist x k tx tk htx htk (fun hh => hkx hh.symm) (List.ne_nil_of_mem hd)
    (by rw [hname, hx])

/-- C22 (witness). The hypotheses hold of `self_group`, in which "a" and "b"
list their own names and two tests named "c" list nothing, and the group is
left in its order. -/
theorem toposort_by_tag_self_dependency_witness :
    (∀ t ∈ self_group, t.depends_on.length < 16) ∧
    (∀ t ∈ self_group, ∀ d ∈ t.depends_on, t.name = some d) ∧
    unittest_toposort_by_tag self_group = some (0, self_group) :=
  ⟨by decide, by decide,
   toposort_by_tag_self_dependency self_group (by decide) (by decide) (by
    intro i j ti tj hi hj hij hd
    rcases i with _ | _ | _ | _ | i <;> rcases j with _ | _ | _ | _ | j <;>
      simp [self_group, mk_test] at hi hj hij <;>
      first
        | (subst hi; subst hj; decide)
        | (subst hi; subst hj; simp at hd))⟩

/-- C23 (evaluation at the failing inputs). In `half_wrap_group` test 0 has
128 resolved incoming edges and its mark is -128 after "build mark". In
`wrap_group` test 0 has 256 resolved incoming edges, among them one from test
1, and its mark is 0 after "build mark", before any test is pushed. -/
theorem mark_wraps_at_128 :
    (build_dag (half_wrap_group.map (fun t => t.name))
      (half_wrap_group.map (fun t => t.depends_on))).map
        (fun dag => dag.map (fun row => row.length)) = some (128 :: List.replicate 16 0) ∧
    (build_dag (half_wrap_group.map (fun t => t.name))
      (half_wrap_group.map (fun t => t.depends_on))).map build_mark =
        some (-128 :: List.replicate 16 0) ∧
    (build_dag (wrap_group.map (fun t => t.name))
      (wrap_group.map (fun t => t.depends_on))).map
        (fun dag => dag.map (fun row => row.length)) = some (256 :: List.replicate 32 0) ∧
    (build_dag (wrap_group.map (fun t => t.name))
      (wrap_group.map (fun t => t.depends_on))).map build_mark =
        some (List.replicate 33 0) ∧
    dep_edge wrap_group 1 0 = true := by
  decide

end Unittest
